import Mathlib

/-!
Verification development for the Tornado-JSON schema core.

The Python source consists of `tornado_json/schema.py` (dynamic schema
resolution and the validation pipeline decorator) and
`tornado_json/apidocjs/output.py` (type/field formatters and the
documentation tree compiler).  JSON-like values, schemas included, are
embedded as the inductive `SVal`; Python dicts become association lists
in declaration order (Python dict literals have unique keys, and lookups
take the first matching entry, which coincides with dict semantics for
unique keys).  A `SchemaCallback` is a deferred zero-argument call; it is
embedded as the node `SVal.callback r` where `r` is the value the call
returns.  Fallible Python code (paths that raise) is embedded with
`Option`.
-/

/-- JSON-like values: the data schemas and instances are made of.
`callback r` embeds a `SchemaCallback` object whose invocation returns `r`. -/
inductive SVal where
  | null : SVal
  | bool (b : Bool) : SVal
  | num (n : Int) : SVal
  | str (s : String) : SVal
  | list (xs : List SVal) : SVal
  | dict (es : List (String × SVal)) : SVal
  | callback (r : SVal) : SVal
deriving Repr

namespace SVal

/-- Structural boolean equality on `SVal` (Python `==` on JSON-like data;
callback objects compare by the value their call returns, which is enough
for every use in this development since no source path compares callback
objects for equality). -/
def beq : SVal → SVal → Bool
  | .null, .null => true
  | .bool a, .bool b => a == b
  | .num a, .num b => a == b
  | .str a, .str b => a == b
  | .list xs, .list ys => beqList xs ys
  | .dict xs, .dict ys => beqDict xs ys
  | .callback a, .callback b => beq a b
  | _, _ => false
where
  beqList : List SVal → List SVal → Bool
    | [], [] => true
    | x :: xs, y :: ys => beq x y && beqList xs ys
    | _, _ => false
  beqDict : List (String × SVal) → List (String × SVal) → Bool
    | [], [] => true
    | (k, x) :: xs, (l, y) :: ys => k == l && beq x y && beqDict xs ys
    | _, _ => false

instance : BEq SVal := ⟨beq⟩

theorem str_beq (a b : String) : (SVal.str a == SVal.str b) = (a == b) := by
  show SVal.beq (SVal.str a) (SVal.str b) = (a == b)
  simp [SVal.beq]

/-- First-match association-list lookup (Python `dict.get` for dicts with
unique keys). -/
def lookup : List (String × SVal) → String → Option SVal
  | [], _ => none
  | (k, v) :: rest, key => if k = key then some v else lookup rest key

/-- Python `schema.get(key)`: `none` when the key is absent or the value
is not a dict. -/
def get : SVal → String → Option SVal
  | .dict es, k => lookup es k
  | _, _ => none

/-- Python `key in schema` for a dict. -/
def hasKey (s : SVal) (k : String) : Bool := (s.get k).isSome

/-- Python truthiness of a JSON-like value (`None`, `False`, `0`, `""`,
`[]`, `{}` are falsy; a callback object, like any plain object, is truthy). -/
def truthy : SVal → Bool
  | .null => false
  | .bool b => b
  | .num n => n != 0
  | .str s => s != ""
  | .list xs => !xs.isEmpty
  | .dict es => !es.isEmpty
  | .callback _ => true

theorem lookup_sizeOf {es : List (String × SVal)} {k : String} {v : SVal}
    (h : lookup es k = some v) : sizeOf v < sizeOf es := by
  induction es with
  | nil => simp [lookup] at h
  | cons e rest ih =>
    obtain ⟨ek, ev⟩ := e
    by_cases hk : ek = k
    · simp [lookup, hk] at h
      subst h
      simp
      omega
    · simp [lookup, hk] at h
      have := ih h
      simp
      omega

theorem get_sizeOf {s : SVal} {k : String} {v : SVal}
    (h : s.get k = some v) : sizeOf v < sizeOf s := by
  rcases s with _ | b | n | st | xs | es | r
  case dict =>
    have hlk : lookup es k = some v := h
    have := lookup_sizeOf hlk
    simp
    omega
  all_goals exact absurd h (by simp [get])

theorem mem_sizeOf {es : List (String × SVal)} {kv : String × SVal}
    (h : kv ∈ es) : sizeOf kv.2 < sizeOf es := by
  induction es with
  | nil => simp at h
  | cons e rest ih =>
    rcases List.mem_cons.mp h with h | h
    · subst h; obtain ⟨a, b⟩ := kv; simp; omega
    · have := ih h
      simp
      omega

end SVal

/-! ## Dynamic schema resolver (`tornado_json/schema.py`)

`evaluate_schema_callbacks` and `detect_schemacallback` in the source
iterate a dict's items, treat a `SchemaCallback` value specially, recurse
into dict values, and pass every other value (lists included) through
unchanged.  The tornado coroutine wrapper around `evaluate_schema_callbacks`
only threads the event loop; the computed value is the one embedded here. -/

/-- `evaluate_schema_callbacks(schema)`: for each item, a `SchemaCallback`
value is replaced by the result of invoking it (the result is not
re-processed), a dict value is resolved recursively, and any other value
is copied unchanged. -/
def evaluate_schema_callbacks : List (String × SVal) → List (String × SVal)
  | [] => []
  | (k, .callback r) :: rest => (k, r) :: evaluate_schema_callbacks rest
  | (k, .dict es) :: rest =>
      (k, .dict (evaluate_schema_callbacks es)) :: evaluate_schema_callbacks rest
  | (k, v) :: rest => (k, v) :: evaluate_schema_callbacks rest

/-- `detect_schemacallback(schema)`: true when some item value is a
`SchemaCallback`, or some dict value recursively contains one.  List
values are never entered. -/
def detect_schemacallback : List (String × SVal) → Bool
  | [] => false
  | (_, .callback _) :: _ => true
  | (_, .dict es) :: rest => detect_schemacallback es || detect_schemacallback rest
  | _ :: rest => detect_schemacallback rest

/-- A substituted callback result is invisible to `detect_schemacallback`
afterwards exactly when it is not itself a callback and, if a dict, detects
clean. -/
def resultClean : SVal → Bool
  | .callback _ => false
  | .dict es => !detect_schemacallback es
  | _ => true

/-- Every `SchemaCallback` reachable through dict nesting has a
detection-clean result. -/
def resultsClean : List (String × SVal) → Bool
  | [] => true
  | (_, .callback r) :: rest => resultClean r && resultsClean rest
  | (_, .dict es) :: rest => resultsClean es && resultsClean rest
  | _ :: rest => resultsClean rest

theorem detect_after_evaluate (s : List (String × SVal))
    (h : resultsClean s = true) :
    detect_schemacallback (evaluate_schema_callbacks s) = false := by
  induction s using evaluate_schema_callbacks.induct with
  | case1 => simp [evaluate_schema_callbacks, detect_schemacallback]
  | case2 k r rest ih =>
    simp only [resultsClean, Bool.and_eq_true] at h
    obtain ⟨h1, h2⟩ := h
    simp only [evaluate_schema_callbacks]
    cases r with
    | callback r => simp [resultClean] at h1
    | dict es =>
      simp only [resultClean, Bool.not_eq_true'] at h1
      simp [detect_schemacallback, h1, ih h2]
    | _ => simp_all [detect_schemacallback]
  | case3 k es rest ihes ih =>
    simp only [resultsClean, Bool.and_eq_true] at h
    obtain ⟨h1, h2⟩ := h
    simp [evaluate_schema_callbacks, detect_schemacallback, ihes h1, ih h2]
  | case4 k v rest hne hnd ih =>
    rcases v with _ | b | n | st | xs | es | r
    case dict => exact absurd rfl (hnd es)
    case callback => exact absurd rfl (hne r)
    all_goals simp_all [resultsClean, evaluate_schema_callbacks, detect_schemacallback]

theorem evaluate_id_of_not_detect (s : List (String × SVal))
    (h : detect_schemacallback s = false) :
    evaluate_schema_callbacks s = s := by
  induction s using evaluate_schema_callbacks.induct with
  | case1 => simp [evaluate_schema_callbacks]
  | case2 k r rest ih => simp [detect_schemacallback] at h
  | case3 k es rest ihes ih =>
    simp only [detect_schemacallback, Bool.or_eq_false_iff] at h
    simp [evaluate_schema_callbacks, ihes h.1, ih h.2]
  | case4 k v rest hne hnd ih =>
    rcases v with _ | b | n | st | xs | es | r
    case dict => exact absurd rfl (hnd es)
    case callback => exact absurd rfl (hne r)
    all_goals simp_all [evaluate_schema_callbacks, detect_schemacallback]

/-- A schema whose only callback sits inside a list value (here: inside an
`enum` list). -/
def listHiddenCallbackSchema : List (String × SVal) :=
  [("type", .str "string"), ("enum", .list [.callback (.str "A"), .str "B"])]

/-- A schema with a callback whose invocation returns a dict that itself
contains a callback. -/
def nestedCallbackSchema : List (String × SVal) :=
  [("key", .callback (.dict [("nested", .callback .null)]))]

/-- A schema with one callback whose invocation returns a plain value. -/
def cleanCallbackSchema : List (String × SVal) :=
  [("type", .callback (.str "string"))]

/-- C1, counterexample: resolution is not exhaustive as claimed.  For a
schema whose callback returns a dict that itself contains a callback,
`evaluate_schema_callbacks` substitutes the returned dict without
re-applying resolution to it, and `detect_schemacallback` still finds a
callback in the resolved tree. -/
theorem C1_counterexample_nested_callback_survives :
    detect_schemacallback (evaluate_schema_callbacks nestedCallbackSchema) = true := by
  simp [nestedCallbackSchema, evaluate_schema_callbacks, detect_schemacallback]

/-- C1 (amended): `evaluate_schema_callbacks` replaces every callback that
occurs as a dict value at any dict-nesting depth by its invoked result,
without re-applying resolution to that result; consequently
`detect_schemacallback` of the resolved schema is false provided every such
callback's result is detection-clean (not itself a callback and, if a dict,
free of dict-reachable callbacks). -/
theorem C1_resolution_exhaustive_on_clean_results
    (s : List (String × SVal)) (h : resultsClean s = true) :
    detect_schemacallback (evaluate_schema_callbacks s) = false :=
  detect_after_evaluate s h

/-- Witness for C1 (amended) at a concrete schema with one callback whose
result is a plain string. -/
theorem C1_resolution_exhaustive_on_clean_results_witness :
    resultsClean cleanCallbackSchema = true ∧
      detect_schemacallback (evaluate_schema_callbacks cleanCallbackSchema) = false :=
  ⟨by simp [cleanCallbackSchema, resultsClean, resultClean],
    C1_resolution_exhaustive_on_clean_results cleanCallbackSchema
      (by simp [cleanCallbackSchema, resultsClean, resultClean])⟩

/-- C9: both `detect_schemacallback` and `evaluate_schema_callbacks`
recurse only into dict values: a list value is skipped by detection and
passed through evaluation unchanged, so a callback inside a list (for
example inside an `enum` list) is never detected and is returned
unevaluated; more generally a schema without dict-reachable callbacks is
returned structurally identical. -/
theorem C9_list_values_opaque_to_resolver :
    (∀ (k : String) (xs : List SVal) (rest : List (String × SVal)),
        evaluate_schema_callbacks ((k, .list xs) :: rest)
            = (k, .list xs) :: evaluate_schema_callbacks rest
          ∧ detect_schemacallback ((k, .list xs) :: rest)
            = detect_schemacallback rest)
      ∧ (∀ s, detect_schemacallback s = false → evaluate_schema_callbacks s = s)
      ∧ detect_schemacallback listHiddenCallbackSchema = false
      ∧ evaluate_schema_callbacks listHiddenCallbackSchema = listHiddenCallbackSchema := by
  refine ⟨fun k xs rest => ⟨?_, ?_⟩, evaluate_id_of_not_detect, ?_, ?_⟩ <;>
    simp [evaluate_schema_callbacks, detect_schemacallback, listHiddenCallbackSchema]

/-- Witness for C9 at a concrete callback-free schema. -/
theorem C9_list_values_opaque_to_resolver_witness :
    evaluate_schema_callbacks [("type", SVal.str "string")]
      = [("type", SVal.str "string")] :=
  C9_list_values_opaque_to_resolver.2.1 _ (by simp [detect_schemacallback])

/-! ## Canonical JSON serialization (`json.dumps`)

The apidocjs formatters call Python `json.dumps` with the default
`ensure_ascii=True` encoder and various separators / `sort_keys` settings.
The encoder is embedded below: strings are double-quoted with `\"`, `\\`,
the short control escapes, and `\uXXXX` (surrogate pairs above the BMP)
for the remaining characters outside printable ASCII; dicts optionally
iterate in sorted key order; serializing a non-JSON value (a callback
object) raises `TypeError`, embedded as `none`. -/

/-- Code-point-lexicographic comparison of character lists (Python string
comparison). -/
def charListLe : List Char → List Char → Bool
  | [], _ => true
  | _ :: _, [] => false
  | c :: cs, d :: ds =>
      if c.toNat < d.toNat then true
      else if d.toNat < c.toNat then false
      else charListLe cs ds

/-- Python `a <= b` on strings. -/
def strLeB (a b : String) : Bool := charListLe a.data b.data

/-- Insert an item into a key-sorted list of dict items. -/
def insertField (e : String × SVal) : List (String × SVal) → List (String × SVal)
  | [] => [e]
  | f :: fs => if strLeB e.1 f.1 then e :: f :: fs else f :: insertField e fs

/-- Python `sorted(d.items())` for a dict with unique keys: ascending by
key (tuple comparison never reaches the values when keys are distinct;
stability is irrelevant for distinct keys). -/
def sortFields : List (String × SVal) → List (String × SVal)
  | [] => []
  | e :: es => insertField e (sortFields es)

/-- Lowercase hexadecimal digit. -/
def hexDigit (n : Nat) : Char :=
  if n < 10 then Char.ofNat (48 + n) else Char.ofNat (87 + n)

/-- Four-digit lowercase hexadecimal rendering (for `\uXXXX`). -/
def hex4 (n : Nat) : String :=
  String.mk [hexDigit (n / 4096 % 16), hexDigit (n / 256 % 16),
             hexDigit (n / 16 % 16), hexDigit (n % 16)]

/-- The escape the default (ascii-only) Python JSON encoder emits for one
character. -/
def jsonEscapeChar (c : Char) : String :=
  if c = '"' then "\\\""
  else if c = '\\' then "\\\\"
  else if c = '\x08' then "\\b"
  else if c = '\x0c' then "\\f"
  else if c = '\n' then "\\n"
  else if c = '\r' then "\\r"
  else if c = '\t' then "\\t"
  else if c.toNat < 0x20 ∨ c.toNat > 0x7e then
    if c.toNat ≥ 0x10000 then
      let v := c.toNat - 0x10000
      "\\u" ++ hex4 (0xd800 + v / 0x400) ++ "\\u" ++ hex4 (0xdc00 + v % 0x400)
    else
      "\\u" ++ hex4 c.toNat
  else String.singleton c

/-- Python JSON string encoding: quoted, characters escaped as above. -/
def pyJsonQuote (s : String) : String :=
  "\"" ++ String.join (s.data.map jsonEscapeChar) ++ "\""

theorem charListLe_total (a b : List Char) :
    charListLe a b = true ∨ charListLe b a = true := by
  induction a generalizing b with
  | nil => left; rfl
  | cons c cs ih =>
      cases b with
      | nil => right; rfl
      | cons d ds =>
          rcases Nat.lt_trichotomy c.toNat d.toNat with h | h | h
          · left
            simp [charListLe, h]
          · rcases ih ds with h2 | h2
            · left
              simp [charListLe, h, h2]
            · right
              simp [charListLe, h.symm, h2]
          · right
            simp [charListLe, h]

theorem charListLe_trans {a b c : List Char} (h1 : charListLe a b = true)
    (h2 : charListLe b c = true) : charListLe a c = true := by
  induction a generalizing b c with
  | nil => rfl
  | cons x xs ih =>
      cases b with
      | nil => simp [charListLe] at h1
      | cons y ys =>
          cases c with
          | nil => simp [charListLe] at h2
          | cons z zs =>
              rw [charListLe] at h1 h2 ⊢
              by_cases hxy : x.toNat < y.toNat
              · by_cases hyz : y.toNat < z.toNat
                · rw [if_pos (Nat.lt_trans hxy hyz)]
                · rw [if_neg hyz] at h2
                  by_cases hzy : z.toNat < y.toNat
                  · rw [if_pos hzy] at h2
                    exact absurd h2 (by simp)
                  · rw [if_pos (show x.toNat < z.toNat by omega)]
              · rw [if_neg hxy] at h1
                by_cases hyx : y.toNat < x.toNat
                · rw [if_pos hyx] at h1
                  exact absurd h1 (by simp)
                · rw [if_neg hyx] at h1
                  by_cases hyz : y.toNat < z.toNat
                  · rw [if_pos (show x.toNat < z.toNat by omega)]
                  · rw [if_neg hyz] at h2
                    by_cases hzy : z.toNat < y.toNat
                    · rw [if_pos hzy] at h2
                      exact absurd h2 (by simp)
                    · rw [if_neg hzy] at h2
                      rw [if_neg (show ¬ x.toNat < z.toNat by omega),
                          if_neg (show ¬ z.toNat < x.toNat by omega)]
                      exact ih h1 h2

theorem strLeB_total (a b : String) : strLeB a b = true ∨ strLeB b a = true :=
  charListLe_total a.data b.data

theorem strLeB_trans {a b c : String} (h1 : strLeB a b = true)
    (h2 : strLeB b c = true) : strLeB a c = true :=
  charListLe_trans h1 h2

theorem insertField_perm (e : String × SVal) (l : List (String × SVal)) :
    List.Perm (insertField e l) (e :: l) := by
  induction l with
  | nil => rfl
  | cons f fs ih =>
      rw [insertField]
      split
      · rfl
      · exact (ih.cons f).trans (List.Perm.swap e f fs)

theorem sortFields_perm (l : List (String × SVal)) : List.Perm (sortFields l) l := by
  induction l with
  | nil => rfl
  | cons e es ih =>
      rw [sortFields]
      exact (insertField_perm e (sortFields es)).trans (ih.cons e)

theorem insertField_pairwise (e : String × SVal) (l : List (String × SVal))
    (h : List.Pairwise (fun a b => strLeB a.1 b.1 = true) l) :
    List.Pairwise (fun a b => strLeB a.1 b.1 = true) (insertField e l) := by
  induction l with
  | nil => simp [insertField]
  | cons f fs ih =>
      rw [insertField]
      rcases List.pairwise_cons.mp h with ⟨hf, hfs⟩
      split
      · rename_i hef
        refine List.pairwise_cons.mpr ⟨?_, h⟩
        intro x hx
        rcases List.mem_cons.mp hx with he | hx2
        · rw [he]
          exact hef
        · exact strLeB_trans hef (hf x hx2)
      · rename_i hef
        refine List.pairwise_cons.mpr ⟨?_, ih hfs⟩
        intro x hx
        have hmem := (insertField_perm e fs).mem_iff.mp hx
        rcases List.mem_cons.mp hmem with he | hx2
        · rw [he]
          rcases strLeB_total e.1 f.1 with h1 | h1
          · exact absurd h1 hef
          · exact h1
        · exact hf x hx2

theorem sortFields_pairwise (l : List (String × SVal)) :
    List.Pairwise (fun a b => strLeB a.1 b.1 = true) (sortFields l) := by
  induction l with
  | nil => simp [sortFields]
  | cons e es ih =>
      rw [sortFields]
      exact insertField_pairwise e _ ih

theorem sortFields_sizeOf (es : List (String × SVal)) :
    sizeOf (sortFields es) = sizeOf es :=
  (sortFields_perm es).sizeOf_eq_sizeOf

mutual

/-- `json.dumps(v, separators=(isep, ksep), sort_keys=sortKeys)` with
`ensure_ascii` defaulted.  `none` embeds the `TypeError` raised on an
unserializable object. -/
def jsonDumps (v : SVal) (isep ksep : String) (sortKeys : Bool) :
    Option String :=
  match v with
  | .null => some "null"
  | .bool b => some (if b then "true" else "false")
  | .num n => some (toString n)
  | .str s => some (pyJsonQuote s)
  | .list xs => do
      let parts ← jsonDumpsList xs isep ksep sortKeys
      return "[" ++ String.intercalate isep parts ++ "]"
  | .dict es => do
      let parts ← jsonDumpsEntries (if sortKeys then sortFields es else es)
        isep ksep sortKeys
      return "\x7b" ++ String.intercalate isep parts ++ "\x7d"
  | .callback _ => none
termination_by (sizeOf v, 1)
decreasing_by
  all_goals apply Prod.Lex.left
  · simp
  · split <;> simp [sortFields_sizeOf]

def jsonDumpsList (xs : List SVal) (isep ksep : String) (sortKeys : Bool) :
    Option (List String) :=
  match xs with
  | [] => some []
  | x :: rest => do
      let s ← jsonDumps x isep ksep sortKeys
      let tl ← jsonDumpsList rest isep ksep sortKeys
      return s :: tl
termination_by (sizeOf xs, 0)
decreasing_by
  all_goals apply Prod.Lex.left
  all_goals simp
  all_goals omega

def jsonDumpsEntries (es : List (String × SVal)) (isep ksep : String)
    (sortKeys : Bool) : Option (List String) :=
  match es with
  | [] => some []
  | (k, v) :: rest => do
      let s ← jsonDumps v isep ksep sortKeys
      let tl ← jsonDumpsEntries rest isep ksep sortKeys
      return (pyJsonQuote k ++ ksep ++ s) :: tl
termination_by (sizeOf es, 0)
decreasing_by
  all_goals apply Prod.Lex.left
  all_goals simp
  all_goals omega

end

/-! ## Type formatter (`tornado_json/apidocjs/output.py`)

`format_type` renders a schema leaf as a compact apidoc type signature.
The Python `template` parameter is always of the form `"%s" + suffix`;
it is embedded as the suffix string, applied by appending.  Paths where
Python raises (`.capitalize()` on a non-string `type` value, `"%d"`
formatting of a non-numeric bound, `json.dumps` of an unserializable
enum) are embedded as `none`. -/

/-- Python `text.replace(pat, rep)` on character lists, for a nonempty
pattern: every non-overlapping occurrence is replaced, scanning left to
right.  (The source only ever replaces a nonempty pattern.)  The `fuel`
argument makes the recursion structural; every step consumes at least one
character, so `fuel = text.length` never runs out. -/
def replaceFuel (pat rep : List Char) : Nat → List Char → List Char
  | 0, l => l
  | _, [] => []
  | fuel + 1, c :: rest =>
    if pat.isPrefixOf (c :: rest) && !pat.isEmpty then
      rep ++ replaceFuel pat rep fuel ((c :: rest).drop pat.length)
    else c :: replaceFuel pat rep fuel rest

/-- Python `s.replace(pat, rep)` (nonempty pattern). -/
def pyReplace (s pat rep : String) : String :=
  String.mk (replaceFuel pat.data rep.data s.data.length s.data)

/-- Python `s[1:-1]`. -/
def pyStr1n1 (s : String) : String :=
  String.mk ((s.data.drop 1).dropLast)

/-- Python `str.capitalize`: first character upper-cased, the rest
lower-cased. -/
def pyCapitalize (s : String) : String :=
  match s.data with
  | [] => ""
  | c :: cs => String.mk (c.toUpper :: cs.map Char.toLower)

/-- The union-type resolution at the top of `format_type`: when the
`type` value is a list, the first member different from `"null"` is used;
if there is none the list itself remains. -/
def resolveUnion : Option SVal → Option SVal
  | some (.list ts) =>
      match ts.find? (fun i => !(i == SVal.str "null")) with
      | some i => some i
      | none => some (.list ts)
  | t => t

/-- Python `str(v)` for the falsy JSON-like values, the only values the
falsy-`enum` path of `format_type` can `%s`-interpolate (the `if enum:`
guard failed, so `v` is one of `None`, `False`, `0`, `''`, `[]`, `{}`).
Truthy values never reach that interpolation and map to `none`. -/
def pyStrFalsy : SVal → Option String
  | .null => some "None"
  | .bool false => some "False"
  | .num 0 => some "0"
  | .str "" => some ""
  | .list [] => some "[]"
  | .dict [] => some "\x7b\x7d"
  | _ => none

/-- The enum clause of `format_type`:
`enum = schema.get('enum', '')`, reassigned to
`"=" + dumps(enum)[1:-1].replace('", ', '",')` only when truthy; a
present-but-falsy value keeps its original form and is `%s`-interpolated
verbatim into the result. -/
def enumClause (schema : SVal) : Option String :=
  match schema.get "enum" with
  | none => some ""
  | some v =>
      if v.truthy then do
        let d ← jsonDumps v ", " ": " false
        return "=" ++ pyReplace (pyStr1n1 d) "\", " "\","
      else pyStrFalsy v

/-- Truthiness of an optional dict value (`schema.get(k)` used in an
`if`). -/
def truthyOpt : Option SVal → Bool
  | none => false
  | some v => v.truthy

/-- Python `"%d" % v` for the values that can appear as schema bounds
(`none` embeds the `TypeError` on anything non-numeric; the source never
formats floats). -/
def pyFormatD : SVal → Option String
  | .num n => some (toString n)
  | .bool b => some (if b then "1" else "0")
  | _ => none

/-- `get_array_suffix(schema)`: one `[]` per array nesting level.  A
missing `items` key defaults to the empty dict, whose suffix is empty. -/
def get_array_suffix (schema : SVal) : String :=
  match schema.get "type" with
  | some (.str t) =>
    if t = "array" then
      match hI : schema.get "items" with
      | some items => get_array_suffix items ++ "[]"
      | none => "[]"
    else ""
  | _ => ""
termination_by sizeOf schema
decreasing_by exact SVal.get_sizeOf hI

/-- The `minLength`/`maxLength` branch ladder of `format_type`'s string
case: the outer `Option` embeds the `TypeError` of `"%d"` formatting, the
inner `Option` is `none` when no branch fires (both bounds falsy) and the
code falls through to the plain format line. -/
def strRangeClause (mn mx : Option SVal) : Option (Option String) :=
  if truthyOpt mn && truthyOpt mx then do
    let a ← pyFormatD (mn.getD .null)
    let b ← pyFormatD (mx.getD .null)
    return some ("\x7b" ++ a ++ ".." ++ b ++ "\x7d")
  else if truthyOpt mn then do
    let a ← pyFormatD (mn.getD .null)
    return some ("\x7b" ++ a ++ "..\x7d")
  else if truthyOpt mx then do
    let b ← pyFormatD (mx.getD .null)
    return some ("\x7b.." ++ b ++ "\x7d")
  else return none

/-- The `minimum`/`maximum` branch ladder of `format_type`'s number
case. -/
def numRangeClause (mn mx : Option SVal) : Option (Option String) :=
  if truthyOpt mn && truthyOpt mx then do
    let a ← pyFormatD (mn.getD .null)
    let b ← pyFormatD (mx.getD .null)
    return some ("\x7b" ++ a ++ "~" ++ b ++ "\x7d")
  else if truthyOpt mn then do
    let a ← pyFormatD (mn.getD .null)
    return some ("\x7b>=" ++ a ++ "\x7d")
  else if truthyOpt mx then do
    let b ← pyFormatD (mx.getD .null)
    return some ("\x7b<=" ++ b ++ "\x7d")
  else return none

/-- `format_type(schema, template)`.  The suffix accumulates the array
depth of the outermost call; the array case recurses into `items`
carrying it along. -/
def format_type (schema : SVal) (template : Option String) : Option String := do
  let stype := resolveUnion (schema.get "type")
  let enum ← enumClause schema
  let suffix := match template with
    | some t => t
    | none => get_array_suffix schema
  match stype, hI : schema.get "items" with
  | some (.str "array"), some items => format_type items (some suffix)
  | _, _ =>
    match stype with
    | some (.str t) =>
      let base := pyCapitalize t ++ suffix
      if t = "string" then
        match strRangeClause (schema.get "minLength") (schema.get "maxLength") with
        | none => none
        | some (some clause) => some (base ++ clause ++ enum)
        | some none => some (base ++ enum)
      else if t = "number" then
        match numRangeClause (schema.get "minimum") (schema.get "maximum") with
        | none => none
        | some (some clause) => some (base ++ clause ++ enum)
        | some none => some (base ++ enum)
      else some (base ++ enum)
    | _ => none
termination_by sizeOf schema
decreasing_by exact SVal.get_sizeOf hI

/-! ## Claims C4 and C6: range clauses and array suffixes -/

/-- A string-typed leaf schema with optional `minLength`/`maxLength`
entries. -/
def strSchema (mn mx : Option Int) : SVal :=
  .dict ([("type", SVal.str "string")]
    ++ (match mn with | some n => [("minLength", SVal.num n)] | none => [])
    ++ (match mx with | some n => [("maxLength", SVal.num n)] | none => []))

/-- Truthiness of an optional integer bound (absent or zero is falsy). -/
def intTruthy (o : Option Int) : Bool := o.getD 0 != 0

/-- The range clause the code actually appends for a string leaf, keyed on
the truthiness of the bounds. -/
def expectedStrRange (mn mx : Option Int) : String :=
  if intTruthy mn && intTruthy mx then
    "\x7b" ++ toString (mn.getD 0) ++ ".." ++ toString (mx.getD 0) ++ "\x7d"
  else if intTruthy mn then "\x7b" ++ toString (mn.getD 0) ++ "..\x7d"
  else if intTruthy mx then "\x7b.." ++ toString (mx.getD 0) ++ "\x7d"
  else ""

/-- C4, counterexample: with `minLength: 0` and `maxLength: 10` both
present, the code emits `String{..10}` (a zero bound is falsy and treated
as absent), not the `String{0..10}` the claim requires. -/
theorem C4_counterexample_zero_min_length :
    format_type (strSchema (some 0) (some 10)) none = some "String\x7b..10\x7d"
      ∧ some "String\x7b..10\x7d" ≠ some "String\x7b0..10\x7d" := by
  constructor
  · simp [format_type, strSchema, resolveUnion, enumClause, get_array_suffix,
      SVal.get, SVal.lookup, pyCapitalize, strRangeClause, truthyOpt, SVal.truthy,
      pyFormatD]
    try decide
  · decide

/-- C4 (amended): for every string leaf schema, `format_type` appends
`{min..max}` when both `minLength` and `maxLength` are present and truthy
(nonzero), `{min..}` when only `minLength` is present and truthy,
`{..max}` when only `maxLength` is present and truthy, and no brace clause
otherwise; in particular a present-but-zero bound behaves as absent.
`format_type({type: string, minLength: 5, maxLength: 10}) = "String{5..10}"`
is the instance `mn = some 5`, `mx = some 10`. -/
theorem C4_string_range_clause (mn mx : Option Int) :
    format_type (strSchema mn mx) none
      = some ("String" ++ expectedStrRange mn mx) := by
  have hcap : pyCapitalize "string" = "String" := by decide
  rcases mn with _ | n <;> rcases mx with _ | m <;>
    simp [format_type, strSchema, resolveUnion, enumClause, get_array_suffix,
      SVal.get, SVal.lookup, strRangeClause, truthyOpt, SVal.truthy, pyFormatD,
      expectedStrRange, intTruthy, hcap]
  · by_cases hm : m = 0 <;> simp [hm]
  · by_cases hn : n = 0 <;> simp [hn]
  · by_cases hn : n = 0 <;> by_cases hm : m = 0 <;> simp [hn, hm]

/-- Array schemas nested `n` levels deep around a leaf. -/
def nestArrays : Nat → SVal → SVal
  | 0, leaf => leaf
  | n + 1, leaf => .dict [("type", SVal.str "array"), ("items", nestArrays n leaf)]

/-- One `[]` token per nesting level. -/
def depthSuffix : Nat → String
  | 0 => ""
  | n + 1 => depthSuffix n ++ "[]"

theorem format_type_nestArrays_template (n : Nat) (t : String) :
    format_type (nestArrays n (.dict [("type", SVal.str "string")])) (some t)
      = some ("String" ++ t) := by
  induction n with
  | zero =>
    simp [nestArrays, format_type, resolveUnion, enumClause, SVal.get,
      SVal.lookup, strRangeClause, truthyOpt, pyCapitalize]
    try decide
  | succ n ih =>
    simp [nestArrays, format_type, resolveUnion, enumClause, SVal.get,
      SVal.lookup, ih]

theorem get_array_suffix_nestArrays (n : Nat) :
    get_array_suffix (nestArrays n (.dict [("type", SVal.str "string")]))
      = depthSuffix n := by
  induction n with
  | zero => simp [nestArrays, get_array_suffix, SVal.get, SVal.lookup, depthSuffix]
  | succ n ih => simp [nestArrays, get_array_suffix, SVal.get, SVal.lookup,
      depthSuffix, ih]

/-- C6: `get_array_suffix` returns `""` on a non-array node and
`get_array_suffix(items) ++ "[]"` on an array node with items — one `[]`
per nesting level — and `format_type` on a finite array nest over a plain
string leaf is the capitalized base kind followed by that suffix; in
particular the doubly nested array of string formats as `String[][]`. -/
theorem C6_array_suffix_and_nested_format :
    (∀ s : SVal, s.get "type" ≠ some (SVal.str "array") → get_array_suffix s = "")
      ∧ (∀ (s items : SVal), s.get "type" = some (SVal.str "array") →
          s.get "items" = some items →
          get_array_suffix s = get_array_suffix items ++ "[]")
      ∧ (∀ n : Nat,
          get_array_suffix (nestArrays n (.dict [("type", SVal.str "string")]))
            = depthSuffix n
          ∧ format_type (nestArrays n (.dict [("type", SVal.str "string")])) none
            = some ("String" ++ depthSuffix n))
      ∧ format_type (nestArrays 2 (.dict [("type", SVal.str "string")])) none
          = some "String[][]" := by
  have key : ∀ n : Nat,
      format_type (nestArrays n (.dict [("type", SVal.str "string")])) none
        = some ("String" ++ depthSuffix n) := by
    intro n
    cases n with
    | zero =>
      simp [nestArrays, format_type, resolveUnion, enumClause, SVal.get,
        SVal.lookup, strRangeClause, truthyOpt, pyCapitalize, get_array_suffix,
        depthSuffix]
      try decide
    | succ n =>
      have hsuffix := get_array_suffix_nestArrays (n + 1)
      simp only [nestArrays] at hsuffix
      have h1 := format_type_nestArrays_template n (depthSuffix (n + 1))
      simp only [nestArrays]
      rw [format_type.eq_def]
      simp only [resolveUnion, enumClause, SVal.get, SVal.lookup]
      simp [hsuffix, h1]
  refine ⟨?_, ?_, fun n => ⟨get_array_suffix_nestArrays n, key n⟩, ?_⟩
  · intro s hs
    rw [get_array_suffix]
    match hT : s.get "type" with
    | some (.str t) =>
      have ht : t ≠ "array" := by
        intro hcontra
        exact hs (hcontra ▸ hT)
      simp [hT, ht]
    | some (.null) | some (.bool _) | some (.num _) | some (.list _)
    | some (.dict _) | some (.callback _) | none => simp [hT]
  · intro s items hT hI
    rw [get_array_suffix]
    simp only [hT]
    simp only [reduceIte]
    split
    · rename_i items2 hI2
      rw [hI] at hI2
      cases hI2
      rfl
    · rename_i hI2
      rw [hI] at hI2
      cases hI2
  · have := key 2
    simpa [depthSuffix] using this

/-! ## Claim C5: enum clauses -/

/-- ASCII characters that the JSON encoder emits verbatim. -/
def plainChar (c : Char) : Bool :=
  c != '"' && c != '\\' && decide (0x20 ≤ c.toNat) && decide (c.toNat ≤ 0x7e)

/-- Strings of verbatim-encoded characters. -/
def plainStr (s : String) : Bool := s.data.all plainChar

/-- Strings that do not begin with comma-space (which the enum-clause
textual replacement would otherwise mangle). -/
def noCommaSpaceStart (s : String) : Bool := !([',', ' '].isPrefixOf s.data)

/-- A quoted JSON string value rendered verbatim. -/
def quoteStr (v : String) : String := "\"" ++ v ++ "\""

/-- The tail of `String.intercalate`: separator-prefixed items. -/
def tailJoin (s : String) : List String → String
  | [] => ""
  | a :: as => s ++ a ++ tailJoin s as

theorem intercalate_go_eq (s : String) (as : List String) :
    ∀ acc, String.intercalate.go acc s as = acc ++ tailJoin s as := by
  induction as with
  | nil => intro acc; simp [String.intercalate.go, tailJoin]
  | cons a as ih =>
    intro acc
    simp [String.intercalate.go, tailJoin, ih, String.append_assoc]

theorem intercalate_cons (s a : String) (as : List String) :
    String.intercalate s (a :: as) = a ++ tailJoin s as := by
  simp [String.intercalate, intercalate_go_eq]

theorem jsonEscapeChar_plain {c : Char} (h : plainChar c = true) :
    jsonEscapeChar c = String.singleton c := by
  simp only [plainChar, Bool.and_eq_true, bne_iff_ne, ne_eq, decide_eq_true_eq] at h
  obtain ⟨⟨⟨hq, hb⟩, hlo⟩, hhi⟩ := h
  have h8 : c ≠ '\x08' := by intro e; subst e; exact absurd hlo (by decide)
  have hc : c ≠ '\x0c' := by intro e; subst e; exact absurd hlo (by decide)
  have hn : c ≠ '\n' := by intro e; subst e; exact absurd hlo (by decide)
  have hr : c ≠ '\r' := by intro e; subst e; exact absurd hlo (by decide)
  have ht : c ≠ '\t' := by intro e; subst e; exact absurd hlo (by decide)
  have hrange : ¬(c.toNat < 0x20 ∨ c.toNat > 0x7e) := by omega
  simp [jsonEscapeChar, hq, hb, h8, hc, hn, hr, ht, hrange]

theorem join_map_singleton (cs : List Char) :
    String.join (cs.map String.singleton) = String.mk cs := by
  apply String.ext
  rw [String.data_join]
  induction cs with
  | nil => rfl
  | cons c rest ih => simp_all [String.singleton]

theorem pyJsonQuote_plain {v : String} (h : plainStr v = true) :
    pyJsonQuote v = quoteStr v := by
  have hmap : v.data.map jsonEscapeChar = v.data.map String.singleton := by
    apply List.map_congr_left
    intro c hc
    exact jsonEscapeChar_plain (by
      simp only [plainStr, List.all_eq_true] at h
      exact h c hc)
  have hv : String.mk v.data = v := by cases v; rfl
  rw [pyJsonQuote, hmap, join_map_singleton, hv, quoteStr]

theorem jsonDumpsList_strings (vs : List String)
    (h : ∀ v ∈ vs, plainStr v = true) :
    jsonDumpsList (vs.map SVal.str) ", " ": " false = some (vs.map quoteStr) := by
  induction vs with
  | nil => simp [jsonDumpsList]
  | cons v rest ih =>
    have hv := h v (by simp)
    have hrest : ∀ w ∈ rest, plainStr w = true := fun w hw => h w (by simp [hw])
    simp [jsonDumpsList, jsonDumps, pyJsonQuote_plain hv, ih hrest]

theorem pyStr1n1_brackets (body : String) :
    pyStr1n1 ("[" ++ body ++ "]") = body := by
  apply String.ext
  simp [pyStr1n1]

/-- Quoted value at character level. -/
def quoteL (v : String) : List Char := '"' :: (v.data ++ ['"'])

/-- `", "`-joined quoted values at character level (the `dumps` body with
its brackets stripped). -/
def bodyL : List String → List Char
  | [] => []
  | [v] => quoteL v
  | v :: vs => quoteL v ++ ',' :: ' ' :: bodyL vs

/-- `","`-joined quoted values at character level (the result the textual
replacement produces). -/
def targetL : List String → List Char
  | [] => []
  | [v] => quoteL v
  | v :: vs => quoteL v ++ ',' :: targetL vs

theorem body_data (vs : List String) :
    (String.intercalate ", " (vs.map quoteStr)).data = bodyL vs := by
  induction vs with
  | nil => rfl
  | cons v rest ih =>
    cases rest with
    | nil => simp [intercalate_cons, tailJoin, bodyL, quoteL, quoteStr]
    | cons w ws =>
      rw [List.map_cons, intercalate_cons]
      rw [List.map_cons, intercalate_cons] at ih
      simp only [tailJoin] at ih ⊢
      simp only [bodyL, quoteL, quoteStr] at ih ⊢
      simp at ih ⊢
      simp [ih]

theorem target_data (vs : List String) :
    (String.intercalate "," (vs.map quoteStr)).data = targetL vs := by
  induction vs with
  | nil => rfl
  | cons v rest ih =>
    cases rest with
    | nil => simp [intercalate_cons, tailJoin, targetL, quoteL, quoteStr]
    | cons w ws =>
      rw [List.map_cons, intercalate_cons]
      rw [List.map_cons, intercalate_cons] at ih
      simp only [tailJoin] at ih ⊢
      simp only [targetL, quoteL, quoteStr] at ih ⊢
      simp at ih ⊢
      simp [ih]

theorem replaceFuel_nil (pat rep : List Char) (n : Nat) :
    replaceFuel pat rep n [] = [] := by
  cases n <;> rfl

theorem replaceFuel_pass_plain (cs : List Char) (h : ∀ c ∈ cs, c ≠ '"') :
    ∀ (tail : List Char) (extra : Nat),
      replaceFuel ['"', ',', ' '] ['"', ','] (cs.length + extra) (cs ++ tail)
        = cs ++ replaceFuel ['"', ',', ' '] ['"', ','] extra tail := by
  induction cs with
  | nil => intro tail extra; simp
  | cons c rest ih =>
    intro tail extra
    have hc : c ≠ '"' := h c (by simp)
    have hrest : ∀ c ∈ rest, c ≠ '"' := fun x hx => h x (by simp [hx])
    have hfuel : (c :: rest).length + extra = (rest.length + extra) + 1 := by
      simp
      omega
    rw [hfuel]
    show replaceFuel _ _ ((rest.length + extra) + 1) (c :: (rest ++ tail)) = _
    rw [replaceFuel]
    have hpre : List.isPrefixOf ['"', ',', ' '] (c :: (rest ++ tail)) = false := by
      simp [List.isPrefixOf]
      intro hcontra
      exact absurd hcontra.symm hc
    simp only [hpre, Bool.false_and, Bool.if_false_left]
    simp [ih hrest tail extra]

theorem replaceFuel_close_match (w : List Char) (n : Nat) :
    replaceFuel ['"', ',', ' '] ['"', ','] (n + 1) ('"' :: ',' :: ' ' :: w)
      = '"' :: ',' :: replaceFuel ['"', ',', ' '] ['"', ','] n w := by
  rw [replaceFuel]
  simp [List.isPrefixOf]

theorem replaceFuel_open_quote (w : List Char) (n : Nat)
    (h : List.isPrefixOf [',', ' '] w = false) :
    replaceFuel ['"', ',', ' '] ['"', ','] (n + 1) ('"' :: w)
      = '"' :: replaceFuel ['"', ',', ' '] ['"', ','] n w := by
  rw [replaceFuel]
  simp [List.isPrefixOf, h]

theorem no_comma_space_lead (v : String) (h : noCommaSpaceStart v = true)
    (tl : List Char) :
    List.isPrefixOf [',', ' '] (v.data ++ '"' :: tl) = false := by
  match hv : v.data with
  | [] => simp [List.isPrefixOf]
  | [c] =>
    by_cases hc : c = ','
    · subst hc; simp [List.isPrefixOf]
    · simp [List.isPrefixOf, hc]
  | c :: d :: rest =>
    by_cases hc : c = ','
    · subst hc
      simp only [noCommaSpaceStart, hv, Bool.not_eq_true'] at h
      simp only [List.isPrefixOf, List.cons_append] at h ⊢
      simp_all
    · simp only [List.isPrefixOf, List.cons_append]
      simp
      intro hcontra
      exact absurd hcontra.symm hc

theorem plain_no_quote {v : String} (h : plainStr v = true) :
    ∀ c ∈ v.data, c ≠ '"' := by
  intro c hc
  simp only [plainStr, List.all_eq_true] at h
  have hcp := h c hc
  simp only [plainChar, Bool.and_eq_true, bne_iff_ne, ne_eq] at hcp
  exact hcp.1.1.1

theorem replace_body (vs : List String)
    (hplain : ∀ v ∈ vs, plainStr v = true)
    (hstart : ∀ v ∈ vs, noCommaSpaceStart v = true) :
    ∀ extra : Nat,
      replaceFuel ['"', ',', ' '] ['"', ','] ((bodyL vs).length + extra) (bodyL vs)
        = targetL vs := by
  induction vs with
  | nil => intro extra; simp [bodyL, targetL, replaceFuel_nil]
  | cons v rest ih =>
    have hv := hplain v (by simp)
    have hvs := hstart v (by simp)
    cases rest with
    | nil =>
      intro extra
      show replaceFuel _ _ ((bodyL [v]).length + extra) (bodyL [v]) = targetL [v]
      have hshape : bodyL [v] = '"' :: (v.data ++ '"' :: []) := by
        simp [bodyL, quoteL]
      rw [hshape]
      rw [show ('"' :: (v.data ++ '"' :: [])).length + extra
            = (v.data.length + (1 + extra)) + 1 by simp; omega]
      rw [replaceFuel_open_quote _ _ (no_comma_space_lead v hvs [])]
      rw [replaceFuel_pass_plain v.data (plain_no_quote hv) ('"' :: []) (1 + extra)]
      rw [show 1 + extra = extra + 1 by omega]
      rw [replaceFuel_open_quote [] extra (by simp [List.isPrefixOf])]
      rw [replaceFuel_nil]
      simp [targetL, quoteL]
    | cons w ws =>
      intro extra
      have ihrest := ih (fun x hx => hplain x (by simp [hx]))
        (fun x hx => hstart x (by simp [hx]))
      have hshape : bodyL (v :: w :: ws)
          = '"' :: (v.data ++ '"' :: ',' :: ' ' :: bodyL (w :: ws)) := by
        simp [bodyL, quoteL]
      rw [hshape]
      rw [show ('"' :: (v.data ++ '"' :: ',' :: ' ' :: bodyL (w :: ws))).length + extra
            = (v.data.length + ((bodyL (w :: ws)).length + 3 + extra)) + 1 by
          simp; omega]
      rw [replaceFuel_open_quote _ _ (no_comma_space_lead v hvs _)]
      rw [replaceFuel_pass_plain v.data (plain_no_quote hv) _
        ((bodyL (w :: ws)).length + 3 + extra)]
      rw [show (bodyL (w :: ws)).length + 3 + extra
            = ((bodyL (w :: ws)).length + (2 + extra)) + 1 by omega]
      rw [replaceFuel_close_match]
      rw [ihrest (2 + extra)]
      simp [targetL, quoteL]

theorem enumClause_strings (schema : SVal) (vs : List String)
    (hget : schema.get "enum" = some (.list (vs.map SVal.str)))
    (hne : vs ≠ [])
    (hplain : ∀ v ∈ vs, plainStr v = true)
    (hstart : ∀ v ∈ vs, noCommaSpaceStart v = true) :
    enumClause schema
      = some ("=" ++ String.intercalate "," (vs.map quoteStr)) := by
  have hdump : jsonDumps (.list (vs.map SVal.str)) ", " ": " false
      = some ("[" ++ String.intercalate ", " (vs.map quoteStr) ++ "]") := by
    rw [jsonDumps]
    simp [jsonDumpsList_strings vs hplain]
  have htruthy : (SVal.list (vs.map SVal.str)).truthy = true := by
    simp [SVal.truthy, hne]
  simp only [enumClause, hget, htruthy, if_true]
  rw [hdump]
  simp only [Option.bind_eq_bind, Option.some_bind]
  have hrepl : pyReplace (pyStr1n1 ("[" ++ String.intercalate ", " (vs.map quoteStr) ++ "]"))
      "\", " "\"," = String.intercalate "," (vs.map quoteStr) := by
    rw [pyStr1n1_brackets]
    rw [pyReplace]
    have hp1 : ("\", " : String).data = ['"', ',', ' '] := rfl
    have hp2 : ("\"," : String).data = ['"', ','] := rfl
    rw [hp1, hp2, body_data]
    rw [show (bodyL vs).length = (bodyL vs).length + 0 by omega]
    rw [replace_body vs hplain hstart 0]
    apply String.ext
    rw [target_data]
  rw [hrepl]
  rfl

/-- A string-typed leaf schema with optional bounds and an enum of string
values. -/
def strEnumSchema (mn mx : Option Int) (vs : List String) : SVal :=
  .dict ([("type", SVal.str "string")]
    ++ (match mn with | some n => [("minLength", SVal.num n)] | none => [])
    ++ (match mx with | some n => [("maxLength", SVal.num n)] | none => [])
    ++ [("enum", SVal.list (vs.map SVal.str))])

/-- C5, counterexample: the claim fails as stated.  An empty enum list is
present but falsy, so the `"="`-clause reassignment is skipped and the raw
`[]` is `%s`-interpolated, yielding the spurious text `String[]` instead of
a quoted value list; non-string enum values are rendered by `json.dumps`
without quotes and keep the space after each comma; and a value beginning
with comma-space is mangled by the textual replacement, losing its
space. -/
theorem C5_counterexample_enum_clause :
    format_type (.dict [("type", SVal.str "string"), ("enum", .list [])]) none
        = some "String[]"
      ∧ format_type
          (.dict [("type", SVal.str "integer"), ("enum", .list [.num 1, .num 2])]) none
        = some "Integer=1, 2"
      ∧ ("Integer=1, 2" : String) ≠ "Integer=1,2"
      ∧ format_type
          (.dict [("type", SVal.str "string"),
                  ("enum", .list [.str "A", .str ", B"])]) none
        = some "String=\"A\",\",B\""
      ∧ ("String=\"A\",\",B\"" : String) ≠ "String=\"A\",\", B\"" := by
  refine ⟨?_, ?_, by decide, ?_, by decide⟩ <;>
    (simp [format_type, resolveUnion, enumClause, get_array_suffix, SVal.get,
      SVal.lookup, pyCapitalize, strRangeClause, numRangeClause, truthyOpt,
      SVal.truthy, pyFormatD, jsonDumps, jsonDumpsList, pyJsonQuote,
      jsonEscapeChar, pyStr1n1, pyReplace, replaceFuel, hex4, hexDigit,
      pyStrFalsy, String.singleton]
     <;> try decide)

/-- C5 (amended): for every string-kind leaf schema whose `enum` key holds
a nonempty list of string values made of verbatim-encoded ASCII characters
and not beginning with comma-space, `format_type` appends an enum clause
consisting of `=` followed by the values quoted and comma-joined in
declaration order with no spaces after commas, placed after the range
clause when one exists.  (A present-but-falsy enum skips the clause and is
`%s`-interpolated verbatim instead; non-string values are not quoted and
keep `json.dumps` item spacing; a value starting with comma-space is
mangled by the textual replacement.) -/
theorem C5_enum_clause_on_string_values (mn mx : Option Int) (vs : List String)
    (hne : vs ≠ [])
    (hplain : ∀ v ∈ vs, plainStr v = true)
    (hstart : ∀ v ∈ vs, noCommaSpaceStart v = true) :
    format_type (strEnumSchema mn mx vs) none
      = some ("String" ++ expectedStrRange mn mx ++ "="
          ++ String.intercalate "," (vs.map quoteStr)) := by
  have hcap : pyCapitalize "string" = "String" := by decide
  have henum := enumClause_strings (strEnumSchema mn mx vs) vs
      (by rcases mn with _ | a <;> rcases mx with _ | b <;>
          simp [strEnumSchema, SVal.get, SVal.lookup]) hne hplain hstart
  rcases mn with _ | n <;> rcases mx with _ | m <;>
    (simp only [strEnumSchema, List.append_assoc, List.cons_append,
       List.nil_append] at henum
     simp [format_type, strEnumSchema, resolveUnion, get_array_suffix,
       SVal.get, SVal.lookup, strRangeClause, truthyOpt, SVal.truthy, pyFormatD,
       expectedStrRange, intTruthy, hcap, henum])
  all_goals first
    | (simp [← String.append_assoc]; done)
    | ((by_cases hm : m = 0 <;> by_cases hn : n = 0 <;>
        simp [hm, hn, ← String.append_assoc]); done)
    | ((by_cases hm : m = 0 <;> simp [hm, ← String.append_assoc]); done)
    | ((by_cases hn : n = 0 <;> simp [hn, ← String.append_assoc]); done)

/-- Witness for C5 (amended) at the enum `["A", "B"]` with no bounds. -/
theorem C5_enum_clause_on_string_values_witness :
    format_type (strEnumSchema none none ["A", "B"]) none
      = some ("String" ++ expectedStrRange none none ++ "="
          ++ String.intercalate "," (["A", "B"].map quoteStr)) :=
  C5_enum_clause_on_string_values none none ["A", "B"] (by decide)
    (by decide) (by decide)

/-- Witness for C6 at a concrete non-array leaf. -/
theorem C6_array_suffix_and_nested_format_witness :
    get_array_suffix (.dict [("type", SVal.str "string")]) = "" :=
  C6_array_suffix_and_nested_format.1 _ (by simp [SVal.get, SVal.lookup])

/-! ## Validation pipeline (`schema.validate` in `tornado_json/schema.py`)

The decorator `_wrapper` parses the request body, resolves a
callback-carrying input schema, validates input via the external
`jsonschema` collaborator, invokes the handler, optionally maps a falsy
result to a 404, validates the wrapped output, and finally writes the
success envelope.  `jsonschema.validate` and the host error surfacing live
outside `src/`; they are modelled from the spec below. -/

/-- JSON Schema type-name matching (draft semantics: `integer` and
`number` accept numbers, booleans are not numbers). -/
def jsTypeMatch (inst : SVal) (t : String) : Bool :=
  match t with
  | "object" => match inst with | .dict _ => true | _ => false
  | "array" => match inst with | .list _ => true | _ => false
  | "string" => match inst with | .str _ => true | _ => false
  | "number" => match inst with | .num _ => true | _ => false
  | "integer" => match inst with | .num _ => true | _ => false
  | "boolean" => match inst with | .bool _ => true | _ => false
  | "null" => match inst with | .null => true | _ => false
  | _ => false

/-- The `type` keyword: a name or a union list of names; absent means
unconstrained. -/
def checkType (inst : SVal) : Option SVal → Bool
  | none => true
  | some (.str t) => jsTypeMatch inst t
  | some (.list ts) =>
      ts.any fun tv => match tv with | .str t => jsTypeMatch inst t | _ => false
  | some _ => true

/-- The `enum` keyword: the instance must equal a member. -/
def checkEnum (inst : SVal) : Option SVal → Bool
  | some (.list vs) => vs.contains inst
  | _ => true

/-- The `minLength`/`maxLength` keywords (strings only). -/
def checkStrBounds (inst : SVal) (mn mx : Option SVal) : Bool :=
  match inst with
  | .str s =>
      (match mn with
        | some (.num n) => decide (n ≤ (s.length : Int))
        | _ => true) &&
      (match mx with
        | some (.num n) => decide ((s.length : Int) ≤ n)
        | _ => true)
  | _ => true

/-- The `minimum`/`maximum` keywords (numbers only). -/
def checkNumBounds (inst : SVal) (mn mx : Option SVal) : Bool :=
  match inst with
  | .num x =>
      (match mn with
        | some (.num n) => decide (n ≤ x)
        | _ => true) &&
      (match mx with
        | some (.num n) => decide (x ≤ n)
        | _ => true)
  | _ => true

/-- The `required` keyword (objects only). -/
def checkRequired (inst : SVal) : Option SVal → Bool
  | some (.list rs) =>
      match inst with
      | .dict _ =>
          rs.all fun r => match r with
            | .str rk => inst.hasKey rk
            | _ => true
      | _ => true
  | _ => true

mutual

/-- Modelled from the spec: the external `jsonschema.validate`
collaborator (not part of `src/`), restricted to the keyword subset the
spec declares supported — type, required, enum, minimum/maximum,
minLength/maxLength, and nested `properties`/`items` composition.
`false` embeds a raised `ValidationError`. -/
def validateJS (inst schema : SVal) : Bool :=
  checkType inst (schema.get "type") &&
  checkEnum inst (schema.get "enum") &&
  checkStrBounds inst (schema.get "minLength") (schema.get "maxLength") &&
  checkNumBounds inst (schema.get "minimum") (schema.get "maximum") &&
  checkRequired inst (schema.get "required") &&
  (match inst with
    | .dict _ =>
        match hP : schema.get "properties" with
        | some (.dict ps) => validateProps inst ps
        | _ => true
    | _ => true) &&
  (match inst with
    | .list xs =>
        match hI : schema.get "items" with
        | some its => validateItems xs its
        | _ => true
    | _ => true)
termination_by (sizeOf schema, 0)
decreasing_by
  · apply Prod.Lex.left
    have h1 := SVal.get_sizeOf hP
    simp at h1
    omega
  · apply Prod.Lex.left
    have h1 := SVal.get_sizeOf hI
    omega

/-- Each declared property present in the instance validates against its
sub-schema. -/
def validateProps (inst : SVal) (ps : List (String × SVal)) : Bool :=
  match ps with
  | [] => true
  | (k, sub) :: rest =>
      (match inst.get k with
        | some v => validateJS v sub
        | none => true) && validateProps inst rest
termination_by (sizeOf ps, 0)
decreasing_by
  all_goals apply Prod.Lex.left
  all_goals (simp; try omega)

/-- Every element validates against the `items` schema. -/
def validateItems (xs : List SVal) (its : SVal) : Bool :=
  match xs with
  | [] => true
  | x :: rest => validateJS x its && validateItems rest its
termination_by (sizeOf its, sizeOf xs + 1)
decreasing_by
  all_goals apply Prod.Lex.right
  all_goals (simp; try omega)

end

/-- The wrapper schema the decorator builds around a declared output
schema before validating the handler result. -/
def wrapSchema (output_schema : SVal) : SVal :=
  .dict [("type", SVal.str "object"),
         ("properties", .dict [("result", output_schema)]),
         ("required", .list [SVal.str "result"])]

/-- The exceptions the decorator can raise: `jsonschema.ValidationError`
(malformed body or input violation), `TypeError` (output contract breach),
`APIError` (empty-result 404). -/
inductive PException where
  | validationError (msg : String)
  | typeError (msg : String)
  | apiError (status : Nat) (msg : String)
deriving Repr

/-- Either the success envelope was written with the handler result, or an
exception was raised (and nothing written). -/
inductive POutcome where
  | ok (result : SVal)
  | err (e : PException)
deriving Repr

/-- One pipeline run: its outcome and whether the handler was invoked. -/
structure PRun where
  outcome : POutcome
  handlerInvoked : Bool
deriving Repr

/-- Modelled from the spec: the message text of the external validator's
error (its content is collaborator-defined; only its presence matters
here). -/
def validatorMessage (inst schema : SVal) : String :=
  "ValidationError while validating " ++ toString (repr inst)
    ++ " against " ++ toString (repr schema)

/-- The malformed-body message raised by the decorator. -/
def malformedMsg : String :=
  "Input is malformed; could not decode JSON object."

/-- The input schema actually validated against: evaluated when a callback
was detected at decoration time, the original otherwise. -/
def resolvedInputSchema (isch : SVal) : SVal :=
  match isch with
  | .dict es =>
      if detect_schemacallback es then SVal.dict (evaluate_schema_callbacks es)
      else isch
  | _ => isch

/-- The tail of `_wrapper` after input handling: invoke the handler, apply
the empty-result 404 policy, validate the wrapped output against the
wrapper schema, raise `TypeError` on violation, else write the success
envelope. -/
def pipelineAfterInput (output_schema : Option SVal) (on_empty_404 : Bool)
    (handler : Option SVal → SVal) (input_ : Option SVal) : PRun :=
  let output := handler input_
  if !output.truthy && on_empty_404 then
    ⟨.err (.apiError 404 "Resource not found."), true⟩
  else
    match output_schema with
    | some osch =>
        if validateJS (.dict [("result", output)]) (wrapSchema osch) then
          ⟨.ok output, true⟩
        else
          ⟨.err (.typeError
            (validatorMessage (.dict [("result", output)]) (wrapSchema osch))), true⟩
    | none => ⟨.ok output, true⟩

/-- `_wrapper`: with an input schema, the raw body is decoded as UTF-8 and
parsed as JSON (`Except.error` embeds either failure — both
`UnicodeDecodeError` and `json` parse errors are `ValueError`s caught by
the same handler), re-raised as a `ValidationError` before anything else
happens; then the possibly-resolved schema validates the input; without an
input schema the body is not read and input is `None`. -/
def pipelineRun (input_schema output_schema : Option SVal) (on_empty_404 : Bool)
    (body : Except String SVal) (handler : Option SVal → SVal) : PRun :=
  match input_schema with
  | some isch =>
      match body with
      | .error _ => ⟨.err (.validationError malformedMsg), false⟩
      | .ok input_ =>
          let isch2 := resolvedInputSchema isch
          if validateJS input_ isch2 then
            pipelineAfterInput output_schema on_empty_404 handler (some input_)
          else
            ⟨.err (.validationError (validatorMessage input_ isch2)), false⟩
  | none => pipelineAfterInput output_schema on_empty_404 handler none

/-- Modelled from the spec: the host request handlers (outside `src/`)
surface a `ValidationError` as a 400-class response carrying the message,
a `TypeError` as a bare `500 Internal Server Error` that does not include
the raised message, and an `APIError` with its own status. -/
structure ClientResponse where
  status : Nat
  body : String
deriving Repr

/-- Modelled from the spec: error surfacing by the host (spec sections on
external interfaces and error handling). -/
def surfaceException : PException → ClientResponse
  | .validationError msg => ⟨400, msg⟩
  | .typeError _ => ⟨500, "Internal Server Error"⟩
  | .apiError s m => ⟨s, m⟩

theorem validateJS_wrap (o os : SVal) :
    validateJS (.dict [("result", o)]) (wrapSchema os) = validateJS o os := by
  rw [validateJS]
  simp [wrapSchema, SVal.get, SVal.lookup, checkType, jsTypeMatch, checkEnum,
    checkStrBounds, checkNumBounds, checkRequired, SVal.hasKey,
    validateProps, validateItems]

/-- C2: when an operation declares an output schema and the handler result
violates it, the pipeline validates the wrapped value `{result: output}`
against `{type: object, properties: {result: output_schema},
required: [result]}` — which accepts exactly what the bare output schema
accepts, so conforming top-level scalars and arrays pass — and the
violation surfaces as a `TypeError` (a different exception kind than the
`ValidationError` of input failures), the success envelope is not written,
and the surfaced 500 response does not carry the violation detail. -/
theorem C2_output_contract_breach (isch osch input out : SVal) (e404 : Bool)
    (hin : validateJS input (resolvedInputSchema isch) = true)
    (htruthy : out.truthy = true)
    (hviol : validateJS out osch = false) :
    (∀ o2 os2 : SVal,
        validateJS (.dict [("result", o2)]) (wrapSchema os2) = validateJS o2 os2)
      ∧ pipelineRun (some isch) (some osch) e404 (.ok input) (fun _ => out)
          = ⟨.err (.typeError
              (validatorMessage (.dict [("result", out)]) (wrapSchema osch))), true⟩
      ∧ (∀ v, (pipelineRun (some isch) (some osch) e404 (.ok input)
            (fun _ => out)).outcome ≠ .ok v)
      ∧ (∀ msg, surfaceException (.typeError msg) = ⟨500, "Internal Server Error"⟩)
      ∧ (∀ m1 m2, PException.typeError m1 ≠ PException.validationError m2) := by
  have hrun : pipelineRun (some isch) (some osch) e404 (.ok input) (fun _ => out)
      = ⟨.err (.typeError
          (validatorMessage (.dict [("result", out)]) (wrapSchema osch))), true⟩ := by
    simp [pipelineRun, hin, pipelineAfterInput, htruthy, validateJS_wrap, hviol]
  refine ⟨validateJS_wrap, hrun, ?_, fun _ => rfl, fun _ _ => by simp⟩
  intro v
  rw [hrun]
  simp

/-- Witness for C2 at the empty input schema, input `{}`, output schema
`{type: string}` and handler result `3`. -/
theorem C2_output_contract_breach_witness :
    pipelineRun (some (.dict [])) (some (.dict [("type", SVal.str "string")]))
        false (.ok (.dict [])) (fun _ => SVal.num 3)
      = ⟨.err (.typeError
          (validatorMessage (.dict [("result", SVal.num 3)])
            (wrapSchema (.dict [("type", SVal.str "string")])))), true⟩ :=
  (C2_output_contract_breach (.dict []) (.dict [("type", SVal.str "string")])
    (.dict []) (SVal.num 3) false
    (by simp [resolvedInputSchema, detect_schemacallback, validateJS, checkType,
      checkEnum, checkStrBounds, checkNumBounds, checkRequired, SVal.get,
      SVal.lookup])
    (by simp [SVal.truthy])
    (by simp [validateJS, checkType, jsTypeMatch, checkEnum, checkStrBounds,
      checkNumBounds, checkRequired, SVal.get, SVal.lookup])).2.1

/-- C3: for an operation with an input schema, a body that fails UTF-8
decoding or JSON parsing makes the pipeline raise the controlled
`ValidationError` with the malformed-input message — both failure modes
are `ValueError` subclasses caught by the decorator's single handler —
and the handler is never invoked, whatever the rest of the configuration
and whatever the handler would have returned. -/
theorem C3_malformed_body_is_controlled_failure (isch : SVal)
    (osch : Option SVal) (e404 : Bool) (emsg : String)
    (handler : Option SVal → SVal) :
    pipelineRun (some isch) osch e404 (.error emsg) handler
      = ⟨.err (.validationError malformedMsg), false⟩ := rfl

/-! ## Documentation tree compiler (`tornado_json/apidocjs/output.py`)

`get_output_schema_doc` walks an object/array schema and emits one apidoc
directive line per field, in ascending key order, each field's nested
lines directly after it.  The `Notation` helper class of the source is
embedded as `ApiNote`. -/

/-- One apidoc directive line: tag, positional arguments, optional body
lines (the source's `Notation` class). -/
structure ApiNote where
  name : String
  parts : List SVal
  lines : List String
deriving Repr

/-- Python `value or ''`. -/
def pyOrEmptyStr : Option SVal → SVal
  | some x => if x.truthy then x else .str ""
  | none => .str ""

/-- Occurrence of `sub` inside `l` (Python `in` on strings). -/
def listContainsSub (sub : List Char) : List Char → Bool
  | [] => sub.isEmpty
  | c :: rest => sub.isPrefixOf (c :: rest) || listContainsSub sub rest

/-- Python `x in cont` for the container shapes that occur here: lists
(membership), dicts (key membership), strings (substring).  `none` embeds
the `TypeError` on non-iterable containers. -/
def pyIn (x : SVal) (cont : SVal) : Option Bool :=
  match cont with
  | .list xs => some (xs.contains x)
  | .dict es => some (es.any fun kv => SVal.str kv.1 == x)
  | .str s =>
      match x with
      | .str sub => some (listContainsSub sub.data s.data)
      | _ => none
  | _ => none

/-- `format_field_name(schema, original_key, field_name, required)`: the
bracket-optional, default-annotated field name.  A falsy `field_name`
falls back to `original_key`; the default value is rendered as compact
key-sorted JSON. -/
def format_field_name (schema : SVal) (original_key : String)
    (field_name : Option String) (required : SVal) : Option String := do
  let fname := match field_name with
    | some f => if f = "" then original_key else f
    | none => original_key
  let mem ← pyIn (.str original_key) required
  let not_required := !mem
  if schema.hasKey "default" && not_required then
    let d ← jsonDumps ((schema.get "default").getD .null) "," ":" true
    return "[" ++ fname ++ "=" ++ d ++ "]"
  else if not_required then
    return "[" ++ fname ++ "]"
  else
    return fname

/-- `get_schema_nested(schema)`: descend while the current node is an
array whose items (or an object whose `properties` dict, read as a schema)
have type `object`/`array`; return the deepest such node.  (A non-dict
`properties` value would raise in Python; it is never produced by the
well-formed schemas considered below.) -/
def get_schema_nested (schema : SVal) : SVal :=
  match schema.get "type" with
  | some (.str t) =>
    if t = "array" then
      match hI : schema.get "items" with
      | some items =>
          match items.get "type" with
          | some (.str it) =>
              if it = "object" ∨ it = "array" then get_schema_nested items
              else schema
          | _ => schema
      | none => schema
    else if t = "object" then
      match hP : schema.get "properties" with
      | some props =>
          match props.get "type" with
          | some (.str pt) =>
              if pt = "object" ∨ pt = "array" then get_schema_nested props
              else schema
          | _ => schema
      | none => schema
    else schema
  | _ => schema
termination_by sizeOf schema
decreasing_by
  · exact SVal.get_sizeOf hI
  · exact SVal.get_sizeOf hP

/-- `get_schema_fields(schema)`: the properties dict of the (possibly
array-nested) object, `{}` otherwise. -/
def get_schema_fields (schema : SVal) : SVal :=
  match schema.get "type" with
  | some (.str t) =>
    if t = "array" then
      match hI : schema.get "items" with
      | some its => if its.truthy then get_schema_fields its else .dict []
      | none => .dict []
    else if t = "object" then (schema.get "properties").getD (.dict [])
    else .dict []
  | _ => .dict []
termination_by sizeOf schema
decreasing_by exact SVal.get_sizeOf hI

/-- `get_schema_notation` of the source: the directive line for one field,
`none` embedding the `Type not declared` exception and the formatter
failure paths. -/
def get_schema_note (k : String) (schema : SVal) (param_name : String)
    (preffix : List String) (required : SVal) : Option ApiNote := do
  let description :=
    match schema.get "type", schema.get "description" with
    | some (.str "object"), none => some ((schema.get "title").getD (.str ""))
    | _, d => d
  let key := if preffix.isEmpty then k
    else String.intercalate "." (preffix ++ [k])
  if (schema.get "type").isNone then none
  else do
    let ft ← format_type schema none
    let fn ← format_field_name schema k (some key) required
    return ⟨param_name, [.str ("\x7b" ++ ft ++ "\x7d"), .str fn,
      pyOrEmptyStr description], []⟩

theorem SVal.sizeOf_pos (s : SVal) : 1 ≤ sizeOf s := by
  cases s <;> simp <;> omega



/-! Branch characterizations of the traversal helpers, used throughout the
compiler proofs. -/

theorem nested_descend_array {s items : SVal} {t : String}
    (harr : s.get "type" = some (SVal.str "array"))
    (hI : s.get "items" = some items)
    (hT : items.get "type" = some (SVal.str t))
    (hor : t = "object" ∨ t = "array") :
    get_schema_nested s = get_schema_nested items := by
  rw [get_schema_nested]
  simp only [harr, reduceIte]
  split
  · rename_i items2 hI2
    rw [hI] at hI2
    injection hI2 with he
    subst he
    simp [hT, hor]
  · rename_i hI2
    rw [hI] at hI2
    exact absurd hI2 (by simp)

theorem nested_stop_array_leaf {s items : SVal} {t : String}
    (harr : s.get "type" = some (SVal.str "array"))
    (hI : s.get "items" = some items)
    (hT : items.get "type" = some (SVal.str t))
    (hnor : ¬(t = "object" ∨ t = "array")) :
    get_schema_nested s = s := by
  rw [get_schema_nested]
  simp only [harr, reduceIte]
  split
  · rename_i items2 hI2
    rw [hI] at hI2
    injection hI2 with he
    subst he
    simp [hT, hnor]
  · rfl

theorem nested_stop_array_nonstr {s items : SVal}
    (harr : s.get "type" = some (SVal.str "array"))
    (hI : s.get "items" = some items)
    (h : ∀ u : String, items.get "type" ≠ some (SVal.str u)) :
    get_schema_nested s = s := by
  rw [get_schema_nested]
  simp only [harr, reduceIte]
  split
  · rename_i items2 hI2
    rw [hI] at hI2
    injection hI2 with he
    subst he
    split
    · rename_i u hu
      exact absurd hu (h u)
    · rfl
  · rfl

theorem nested_array_noitems {s : SVal}
    (harr : s.get "type" = some (SVal.str "array"))
    (hI : s.get "items" = none) :
    get_schema_nested s = s := by
  rw [get_schema_nested]
  simp only [harr, reduceIte]
  split
  · rename_i items2 hI2
    rw [hI] at hI2
    exact absurd hI2 (by simp)
  · rfl

theorem nested_obj_props_nonstr {s props : SVal}
    (hobj : s.get "type" = some (SVal.str "object"))
    (hP : s.get "properties" = some props)
    (h : ∀ u : String, props.get "type" ≠ some (SVal.str u)) :
    get_schema_nested s = s := by
  rw [get_schema_nested]
  simp only [hobj, reduceIte]
  have : ("object" : String) ≠ "array" := by decide
  simp only [this, reduceIte]
  split
  · rename_i props2 hP2
    rw [hP] at hP2
    injection hP2 with he
    subst he
    split
    · rename_i u hu
      exact absurd hu (h u)
    · rfl
  · rfl

theorem nested_obj_noprops {s : SVal}
    (hobj : s.get "type" = some (SVal.str "object"))
    (hP : s.get "properties" = none) :
    get_schema_nested s = s := by
  rw [get_schema_nested]
  simp only [hobj, reduceIte]
  have : ("object" : String) ≠ "array" := by decide
  simp only [this, reduceIte]
  split
  · rename_i props2 hP2
    rw [hP] at hP2
    exact absurd hP2 (by simp)
  · rfl

theorem nested_scalar {s : SVal} {t : String}
    (hT : s.get "type" = some (SVal.str t))
    (h1 : t ≠ "array") (h2 : t ≠ "object") :
    get_schema_nested s = s := by
  rw [get_schema_nested]
  simp [hT, h1, h2]

theorem nested_nonstr {s : SVal}
    (h : ∀ u : String, s.get "type" ≠ some (SVal.str u)) :
    get_schema_nested s = s := by
  rw [get_schema_nested]
  split
  · rename_i u hu
    exact absurd hu (h u)
  · rfl

theorem fields_array_descend {s its : SVal}
    (harr : s.get "type" = some (SVal.str "array"))
    (hI : s.get "items" = some its)
    (htr : its.truthy = true) :
    get_schema_fields s = get_schema_fields its := by
  rw [get_schema_fields]
  simp only [harr, reduceIte]
  split
  · rename_i its2 hI2
    rw [hI] at hI2
    injection hI2 with he
    subst he
    simp [htr]
  · rename_i hI2
    rw [hI] at hI2
    exact absurd hI2 (by simp)

theorem fields_array_falsy {s its : SVal}
    (harr : s.get "type" = some (SVal.str "array"))
    (hI : s.get "items" = some its)
    (htr : its.truthy = false) :
    get_schema_fields s = .dict [] := by
  rw [get_schema_fields]
  simp only [harr, reduceIte]
  split
  · rename_i its2 hI2
    rw [hI] at hI2
    injection hI2 with he
    subst he
    simp [htr]
  · rfl

theorem fields_array_noitems {s : SVal}
    (harr : s.get "type" = some (SVal.str "array"))
    (hI : s.get "items" = none) :
    get_schema_fields s = .dict [] := by
  rw [get_schema_fields]
  simp only [harr, reduceIte]
  split
  · rename_i its2 hI2
    rw [hI] at hI2
    exact absurd hI2 (by simp)
  · rfl

theorem fields_object {s : SVal}
    (hobj : s.get "type" = some (SVal.str "object")) :
    get_schema_fields s = (s.get "properties").getD (.dict []) := by
  rw [get_schema_fields]
  have : ("object" : String) ≠ "array" := by decide
  simp [hobj, this]

theorem fields_scalar {s : SVal} {t : String}
    (hT : s.get "type" = some (SVal.str t))
    (h1 : t ≠ "array") (h2 : t ≠ "object") :
    get_schema_fields s = .dict [] := by
  rw [get_schema_fields]
  simp [hT, h1, h2]

theorem fields_nonstr {s : SVal}
    (h : ∀ u : String, s.get "type" ≠ some (SVal.str u)) :
    get_schema_fields s = .dict [] := by
  rw [get_schema_fields]
  split
  · rename_i u hu
    exact absurd hu (h u)
  · rfl

theorem nested_descend_obj {s props : SVal} {t : String}
    (hobj : s.get "type" = some (SVal.str "object"))
    (hP : s.get "properties" = some props)
    (hT : props.get "type" = some (SVal.str t))
    (hor : t = "object" ∨ t = "array") :
    get_schema_nested s = get_schema_nested props := by
  rw [get_schema_nested]
  simp only [hobj, reduceIte]
  have hne : ("object" : String) ≠ "array" := by decide
  simp only [hne, reduceIte]
  split
  · rename_i props2 hP2
    rw [hP] at hP2
    injection hP2 with he
    subst he
    simp [hT, hor]
  · rename_i hP2
    rw [hP] at hP2
    exact absurd hP2 (by simp)

theorem nested_obj_props_leaf {s props : SVal} {t : String}
    (hobj : s.get "type" = some (SVal.str "object"))
    (hP : s.get "properties" = some props)
    (hT : props.get "type" = some (SVal.str t))
    (hnor : ¬(t = "object" ∨ t = "array")) :
    get_schema_nested s = s := by
  rw [get_schema_nested]
  simp only [hobj, reduceIte]
  have hne : ("object" : String) ≠ "array" := by decide
  simp only [hne, reduceIte]
  split
  · rename_i props2 hP2
    rw [hP] at hP2
    injection hP2 with he
    subst he
    simp [hT, hnor]
  · rfl

theorem get_schema_nested_sizeOf (s : SVal) :
    sizeOf (get_schema_nested s) ≤ sizeOf s := by
  induction s using get_schema_nested.induct with
  | case1 x items hI t hT hor harr ih =>
      rw [nested_descend_array harr hI hT hor]
      have h1 := SVal.get_sizeOf hI
      omega
  | case2 x items hI t hT hnor harr =>
      rw [nested_stop_array_leaf harr hI hT hnor]
  | case3 x items hI h harr =>
      rw [nested_stop_array_nonstr harr hI (fun u hu => h u hu)]
  | case4 x hI harr =>
      rw [nested_array_noitems harr hI]
  | case5 x props hP t hT hor hobj hne ih =>
      rw [nested_descend_obj hobj hP hT hor]
      have h1 := SVal.get_sizeOf hP
      omega
  | case6 x props hP t hT hnor hobj hne =>
      rw [nested_obj_props_leaf hobj hP hT hnor]
  | case7 x props hP h hobj hne =>
      rw [nested_obj_props_nonstr hobj hP (fun u hu => h u hu)]
  | case8 x hP hobj hne =>
      rw [nested_obj_noprops hobj hP]
  | case9 x t hT h1 h2 =>
      rw [nested_scalar hT h1 h2]
  | case10 x h =>
      rw [nested_nonstr (fun u hu => h u hu)]

theorem get_schema_fields_sizeOf (s : SVal) :
    ∀ {fs : List (String × SVal)}, get_schema_fields s = .dict fs →
      sizeOf fs ≤ sizeOf s := by
  induction s using get_schema_fields.induct with
  | case1 x items hI htr harr ih =>
      intro fs h
      rw [fields_array_descend harr hI htr] at h
      have h1 := SVal.get_sizeOf hI
      have h2 := ih h
      omega
  | case2 x items hI htr harr =>
      intro fs h
      rw [fields_array_falsy harr hI (by simpa using htr)] at h
      injection h with he
      subst he
      have := SVal.sizeOf_pos x
      simp
      omega
  | case3 x hI harr =>
      intro fs h
      rw [fields_array_noitems harr hI] at h
      injection h with he
      subst he
      have := SVal.sizeOf_pos x
      simp
      omega
  | case4 x hobj hne =>
      intro fs h
      rw [fields_object hobj] at h
      match hP : x.get "properties" with
      | some v =>
          rw [hP] at h
          simp at h
          subst h
          have := SVal.get_sizeOf hP
          simp at this
          omega
      | none =>
          rw [hP] at h
          simp at h
          subst h
          have := SVal.sizeOf_pos x
          simp
          omega
  | case5 x t hT h1 h2 =>
      intro fs h
      rw [fields_scalar hT h1 h2] at h
      injection h with he
      subst he
      have := SVal.sizeOf_pos x
      simp
      omega
  | case6 x hnostr =>
      intro fs h
      rw [fields_nonstr (fun u hu => hnostr u hu)] at h
      injection h with he
      subst he
      have := SVal.sizeOf_pos x
      simp
      omega

mutual

/-- `get_output_schema_doc(output_schema, param_name, preffix)`: one
directive line per property of the discovered object (in ascending key
order, tuple-sorted as in Python), each immediately followed by the lines
of its nested object or array; a root whose raw `type` value is neither
the string `object` nor `array` yields the empty sequence.  `required` is
read from the `get_schema_nested` result.  `none` embeds the exceptions
(`Type not declared`, and iterating a non-dict `properties`). -/
def get_output_schema_doc (output_schema : SVal) (param_name : String)
    (preffix : List String) : Option (List ApiNote) :=
  match output_schema.get "type" with
  | some (.str t) =>
    if t = "object" ∨ t = "array" then
      let schema0 := get_schema_nested output_schema
      let required := (schema0.get "required").getD (.list [])
      match hf : get_schema_fields schema0 with
      | .dict fields => doc_fields (sortFields fields) param_name preffix required
      | _ => none
    else some []
  | _ => some []
termination_by (sizeOf output_schema, 1)
decreasing_by
  have h1 : sizeOf fields ≤ sizeOf output_schema := by
    have h2 := get_schema_fields_sizeOf (get_schema_nested output_schema) hf
    have h3 := get_schema_nested_sizeOf output_schema
    omega
  rw [sortFields_sizeOf]
  rcases Nat.lt_or_ge (sizeOf fields) (sizeOf output_schema) with hlt | hge
  · exact Prod.Lex.left _ _ hlt
  · have heq : sizeOf fields = sizeOf output_schema := Nat.le_antisymm h1 hge
    rw [heq]
    exact Prod.Lex.right _ (by omega)

/-- The field loop of `get_output_schema_doc`: emit the field's line, then
the recursively compiled lines of an object field with properties or an
array field with items, then the remaining siblings. -/
def doc_fields (fields : List (String × SVal)) (param_name : String)
    (preffix : List String) (required : SVal) : Option (List ApiNote) :=
  match fields with
  | [] => some []
  | (k, fschema) :: rest => do
      let note ← get_schema_note k fschema param_name preffix required
      let children ←
        if fschema.get "type" == some (SVal.str "object")
            && fschema.hasKey "properties" then
          get_output_schema_doc fschema param_name (preffix ++ [k])
        else if fschema.get "type" == some (SVal.str "array")
            && fschema.hasKey "items" then
          get_output_schema_doc fschema param_name (preffix ++ [k])
        else
          pure []
      let tail ← doc_fields rest param_name preffix required
      return note :: children ++ tail
termination_by (sizeOf fields, 0)
decreasing_by
  all_goals apply Prod.Lex.left
  all_goals simp
  all_goals omega

end

theorem doc_fields_nil (p : String) (pre : List String) (req : SVal) :
    doc_fields [] p pre req = some [] := by
  rw [doc_fields]

theorem doc_fields_cons_arr (k : String) {fschema : SVal}
    (rest : List (String × SVal)) (p : String) (pre : List String) (req : SVal)
    (h1 : (fschema.get "type" == some (SVal.str "object")
        && fschema.hasKey "properties") = false)
    (h2 : (fschema.get "type" == some (SVal.str "array")
        && fschema.hasKey "items") = true) :
    doc_fields ((k, fschema) :: rest) p pre req
      = (get_schema_note k fschema p pre req).bind (fun note =>
        (get_output_schema_doc fschema p (pre ++ [k])).bind (fun children =>
        (doc_fields rest p pre req).bind (fun tail =>
        some (note :: children ++ tail)))) := by
  rw [doc_fields]
  simp [h1, h2]

theorem doc_fields_cons_obj (k : String) {fschema : SVal}
    (rest : List (String × SVal)) (p : String) (pre : List String) (req : SVal)
    (h1 : (fschema.get "type" == some (SVal.str "object")
        && fschema.hasKey "properties") = true) :
    doc_fields ((k, fschema) :: rest) p pre req
      = (get_schema_note k fschema p pre req).bind (fun note =>
        (get_output_schema_doc fschema p (pre ++ [k])).bind (fun children =>
        (doc_fields rest p pre req).bind (fun tail =>
        some (note :: children ++ tail)))) := by
  rw [doc_fields]
  simp [h1]

theorem doc_fields_cons_leaf (k : String) {fschema : SVal}
    (rest : List (String × SVal)) (p : String) (pre : List String) (req : SVal)
    (h1 : (fschema.get "type" == some (SVal.str "object")
        && fschema.hasKey "properties") = false)
    (h2 : (fschema.get "type" == some (SVal.str "array")
        && fschema.hasKey "items") = false) :
    doc_fields ((k, fschema) :: rest) p pre req
      = (get_schema_note k fschema p pre req).bind (fun note =>
        (doc_fields rest p pre req).bind (fun tail =>
        some (note :: tail))) := by
  rw [doc_fields]
  simp [h1, h2]

theorem doc_scalar {s : SVal} {t : String} (p : String) (pre : List String)
    (hT : s.get "type" = some (SVal.str t))
    (h1 : t ≠ "object") (h2 : t ≠ "array") :
    get_output_schema_doc s p pre = some [] := by
  rw [get_output_schema_doc]
  simp [hT, h1, h2]

theorem doc_nonstr {s : SVal} (p : String) (pre : List String)
    (h : ∀ u : String, s.get "type" ≠ some (SVal.str u)) :
    get_output_schema_doc s p pre = some [] := by
  rw [get_output_schema_doc]
  split
  · rename_i u hu
    exact absurd hu (h u)
  · rfl

theorem doc_unfold {s : SVal} {t : String} (p : String) (pre : List String)
    (hT : s.get "type" = some (SVal.str t))
    (hor : t = "object" ∨ t = "array")
    {fields : List (String × SVal)}
    (hf : get_schema_fields (get_schema_nested s) = .dict fields) :
    get_output_schema_doc s p pre
      = doc_fields (sortFields fields) p pre
          (((get_schema_nested s).get "required").getD (.list [])) := by
  rw [get_output_schema_doc]
  simp only [hT, hor, reduceIte, if_pos]
  split
  · rename_i fields2 hf2
    rw [hf] at hf2
    injection hf2 with he
    subst he
    rfl
  · rename_i hcontra
    exact absurd hf (fun he => hcontra fields he)

theorem doc_nondict {s : SVal} {t : String} (p : String) (pre : List String)
    (hT : s.get "type" = some (SVal.str t))
    (hor : t = "object" ∨ t = "array")
    (hf : ∀ fields : List (String × SVal),
      get_schema_fields (get_schema_nested s) ≠ .dict fields) :
    get_output_schema_doc s p pre = none := by
  rw [get_output_schema_doc]
  simp only [hT, hor, reduceIte, if_pos]

/-! ## Claim C8: required comes from the innermost object -/

theorem SVal.truthy_of_get {s : SVal} {k : String} {v : SVal}
    (h : s.get k = some v) : s.truthy = true := by
  rcases s with _ | b | n | st | xs | es | r <;> simp [SVal.get] at h
  cases es with
  | nil => simp [SVal.lookup] at h
  | cons e rest => simp [SVal.truthy]

/-- An array schema nested `n` levels around `obj`, each array level
carrying its own `required` entry `r` (which the compiler must ignore). -/
def nestArrayReq (r : SVal) : Nat → SVal → SVal
  | 0, obj => obj
  | n + 1, obj =>
      .dict [("type", SVal.str "array"), ("items", nestArrayReq r n obj),
             ("required", r)]

theorem nestArrayReq_type (r : SVal) (n : Nat) (obj : SVal) :
    (nestArrayReq r (n + 1) obj).get "type" = some (SVal.str "array") := by
  simp [nestArrayReq, SVal.get, SVal.lookup]

theorem nestArrayReq_items (r : SVal) (n : Nat) (obj : SVal) :
    (nestArrayReq r (n + 1) obj).get "items" = some (nestArrayReq r n obj) := by
  simp [nestArrayReq, SVal.get, SVal.lookup]

theorem nest_nested_eq (r obj : SVal)
    (hobj : obj.get "type" = some (SVal.str "object"))
    (hfix : get_schema_nested obj = obj) :
    ∀ n, get_schema_nested (nestArrayReq r (n + 1) obj) = obj := by
  intro n
  induction n with
  | zero =>
      rw [nested_descend_array (nestArrayReq_type r 0 obj)
        (nestArrayReq_items r 0 obj) (show (nestArrayReq r 0 obj).get "type"
          = some (SVal.str "object") from hobj) (Or.inl rfl)]
      exact hfix
  | succ n ih =>
      rw [nested_descend_array (nestArrayReq_type r (n + 1) obj)
        (nestArrayReq_items r (n + 1) obj) (nestArrayReq_type r n obj)
        (Or.inr rfl)]
      exact ih

theorem C8_required_from_innermost_helper (r obj : SVal) (tag : String)
    (pre : List String)
    (hobj : obj.get "type" = some (SVal.str "object"))
    (hfix : get_schema_nested obj = obj) :
    ∀ n, get_output_schema_doc (nestArrayReq r n obj) tag pre
      = get_output_schema_doc obj tag pre := by
  intro n
  cases n with
  | zero => rfl
  | succ n =>
      match hfs : get_schema_fields obj with
      | .dict fs =>
          rw [doc_unfold tag pre (nestArrayReq_type r n obj) (Or.inr rfl)
            (show get_schema_fields (get_schema_nested (nestArrayReq r (n + 1) obj))
              = SVal.dict fs by rw [nest_nested_eq r obj hobj hfix n]; exact hfs)]
          rw [doc_unfold tag pre hobj (Or.inl rfl)
            (show get_schema_fields (get_schema_nested obj) = SVal.dict fs by
              rw [hfix]; exact hfs)]
          rw [nest_nested_eq r obj hobj hfix n, hfix]
      | .null | .bool _ | .num _ | .str _ | .list _ | .callback _ =>
          rw [doc_nondict tag pre (nestArrayReq_type r n obj) (Or.inr rfl)
            (by intro fields hcontra
                rw [nest_nested_eq r obj hobj hfix n] at hcontra
                rw [hfs] at hcontra
                exact absurd hcontra (by simp)),
            doc_nondict tag pre hobj (Or.inl rfl)
            (by intro fields hcontra
                rw [hfix, hfs] at hcontra
                exact absurd hcontra (by simp))]

/-- The innermost object of the repository's array-of-object test. -/
def connItemsSchema : SVal := .dict
  [("type", SVal.str "object"),
   ("properties", .dict
      [("airport", .dict [("type", SVal.str "string")]),
       ("flight", .dict [("type", SVal.str "string")]),
       ("arrive_time", .dict [("type", SVal.str "string")])]),
   ("required", .list [SVal.str "flight", SVal.str "arrive_time"])]

/-- The `connections` array field of that test. -/
def connectionsField : SVal := .dict
  [("type", SVal.str "array"), ("items", connItemsSchema)]

/-- The root object of that test: its own `required` names `connections`,
while the innermost object's `required` names `flight`/`arrive_time`. -/
def connSchema : SVal := .dict
  [("type", SVal.str "object"),
   ("properties", .dict [("connections", connectionsField)]),
   ("required", .list [SVal.str "connections"])]

/-- The properties dict of the innermost object. -/
def connProps : SVal := .dict
  [("airport", .dict [("type", SVal.str "string")]),
   ("flight", .dict [("type", SVal.str "string")]),
   ("arrive_time", .dict [("type", SVal.str "string")])]

theorem connItems_fix : get_schema_nested connItemsSchema = connItemsSchema :=
  @nested_obj_props_nonstr connItemsSchema connProps
    (by simp [connItemsSchema, SVal.get, SVal.lookup])
    (by simp [connItemsSchema, connProps, SVal.get, SVal.lookup])
    (by intro u; simp [connProps, SVal.get, SVal.lookup])

theorem conn_inner_doc :
    get_output_schema_doc connectionsField "apiSuccess" ["connections"]
      = some
        [⟨"apiSuccess", [.str "\x7bString\x7d", .str "[connections.airport]", .str ""], []⟩,
         ⟨"apiSuccess", [.str "\x7bString\x7d", .str "connections.arrive_time", .str ""], []⟩,
         ⟨"apiSuccess", [.str "\x7bString\x7d", .str "connections.flight", .str ""], []⟩] := by
  have hnesti : get_schema_nested connItemsSchema = connItemsSchema :=
    connItems_fix
  have hnest : get_schema_nested connectionsField = connItemsSchema := by
    rw [@nested_descend_array connectionsField connItemsSchema "object"
      (by simp [connectionsField, SVal.get, SVal.lookup])
      (by simp [connectionsField, SVal.get, SVal.lookup])
      (by simp [connItemsSchema, SVal.get, SVal.lookup]) (Or.inl rfl)]
    exact hnesti
  have hfields : get_schema_fields (get_schema_nested connectionsField)
      = SVal.dict
        [("airport", .dict [("type", SVal.str "string")]),
         ("flight", .dict [("type", SVal.str "string")]),
         ("arrive_time", .dict [("type", SVal.str "string")])] := by
    rw [hnest, fields_object (by simp [connItemsSchema, SVal.get, SVal.lookup])]
    simp [connItemsSchema, SVal.get, SVal.lookup]
  rw [doc_unfold "apiSuccess" ["connections"]
    (by simp [connectionsField, SVal.get, SVal.lookup]) (Or.inr rfl) hfields]
  rw [hnest]
  rw [show sortFields
      [("airport", SVal.dict [("type", SVal.str "string")]),
       ("flight", SVal.dict [("type", SVal.str "string")]),
       ("arrive_time", SVal.dict [("type", SVal.str "string")])]
    = [("airport", SVal.dict [("type", SVal.str "string")]),
       ("arrive_time", SVal.dict [("type", SVal.str "string")]),
       ("flight", SVal.dict [("type", SVal.str "string")])] from rfl]
  have i1 : ".".intercalate ["connections", "airport"] = "connections.airport" := rfl
  have i2 : ".".intercalate ["connections", "arrive_time"]
      = "connections.arrive_time" := rfl
  have i3 : ".".intercalate ["connections", "flight"] = "connections.flight" := rfl
  simp [connItemsSchema, doc_fields, get_schema_note, SVal.get, SVal.lookup,
    SVal.hasKey, format_type, format_field_name, resolveUnion, enumClause,
    get_array_suffix, strRangeClause, numRangeClause, truthyOpt, pyCapitalize,
    pyIn, pyOrEmptyStr, SVal.truthy, SVal.str_beq, List.contains, i1, i2, i3]

theorem conn_doc :
    get_output_schema_doc connSchema "apiSuccess" []
      = some
        [⟨"apiSuccess", [.str "\x7bObject[]\x7d", .str "connections", .str ""], []⟩,
         ⟨"apiSuccess", [.str "\x7bString\x7d", .str "[connections.airport]", .str ""], []⟩,
         ⟨"apiSuccess", [.str "\x7bString\x7d", .str "connections.arrive_time", .str ""], []⟩,
         ⟨"apiSuccess", [.str "\x7bString\x7d", .str "connections.flight", .str ""], []⟩] := by
  have hnestr : get_schema_nested connSchema = connSchema :=
    @nested_obj_props_nonstr connSchema (SVal.dict [("connections", connectionsField)])
      (by simp [connSchema, SVal.get, SVal.lookup])
      (by simp [connSchema, SVal.get, SVal.lookup])
      (by intro u; simp [SVal.get, SVal.lookup])
  have hfieldsr : get_schema_fields (get_schema_nested connSchema)
      = SVal.dict [("connections", connectionsField)] := by
    rw [hnestr, fields_object (by simp [connSchema, SVal.get, SVal.lookup])]
    simp [connSchema, SVal.get, SVal.lookup]
  rw [doc_unfold "apiSuccess" []
    (by simp [connSchema, SVal.get, SVal.lookup]) (Or.inl rfl) hfieldsr]
  rw [hnestr]
  have hreq : ((connSchema.get "required").getD (SVal.list []))
      = SVal.list [SVal.str "connections"] := by
    simp [connSchema, SVal.get, SVal.lookup]
  rw [hreq]
  rw [show sortFields [("connections", connectionsField)]
    = [("connections", connectionsField)] from rfl]
  have hnote : get_schema_note "connections" connectionsField "apiSuccess" []
      (SVal.list [SVal.str "connections"])
      = some ⟨"apiSuccess",
          [.str "\x7bObject[]\x7d", .str "connections", .str ""], []⟩ := by
    simp [get_schema_note, connectionsField, connItemsSchema, SVal.get,
      SVal.lookup, format_type, format_field_name, resolveUnion, enumClause,
      get_array_suffix, strRangeClause, numRangeClause, truthyOpt, pyCapitalize,
      pyIn, pyOrEmptyStr, SVal.truthy, SVal.hasKey, SVal.str_beq, List.contains]
  have hc1 : (connectionsField.get "type" == some (SVal.str "object")
      && connectionsField.hasKey "properties") = false := by
    simp [connectionsField, SVal.get, SVal.lookup, SVal.hasKey, SVal.str_beq]
  have hc2 : (connectionsField.get "type" == some (SVal.str "array")
      && connectionsField.hasKey "items") = true := by
    simp [connectionsField, SVal.get, SVal.lookup, SVal.hasKey, SVal.str_beq]
  rw [doc_fields_cons_arr "connections" [] "apiSuccess" []
    (SVal.list [SVal.str "connections"]) hc1 hc2]
  rw [hnote, Option.some_bind]
  rw [show (([] : List String) ++ ["connections"]) = ["connections"] from rfl]
  rw [conn_inner_doc, Option.some_bind]
  rw [doc_fields_nil, Option.some_bind]
  rfl

/-- C8: when the documentation compiler processes an array schema whose
(possibly nested) element type is object, the bracketing of each emitted
field name is decided by membership in the innermost object's own
`required` list.  First conjunct: wrapping an object schema
(`get_schema_nested`-fixed) in any number of array levels carrying an
arbitrary `required` value `r` leaves `get_output_schema_doc` unchanged, so
the enclosing arrays' `required` lists are never consulted.  Second
conjunct: on the repository's connections schema the root `required` is
`["connections"]`, yet `airport` (absent from the innermost object's
`required`) is bracketed optional while `arrive_time` and `flight`
(present there) are unbracketed. -/
theorem C8_innermost_required_decides_brackets :
    (∀ (r obj : SVal) (tag : String) (pre : List String) (n : Nat),
        obj.get "type" = some (SVal.str "object") →
        get_schema_nested obj = obj →
        get_output_schema_doc (nestArrayReq r n obj) tag pre
          = get_output_schema_doc obj tag pre)
    ∧ get_output_schema_doc connSchema "apiSuccess" []
        = some
          [⟨"apiSuccess", [.str "\x7bObject[]\x7d", .str "connections", .str ""], []⟩,
           ⟨"apiSuccess", [.str "\x7bString\x7d", .str "[connections.airport]", .str ""], []⟩,
           ⟨"apiSuccess", [.str "\x7bString\x7d", .str "connections.arrive_time", .str ""], []⟩,
           ⟨"apiSuccess", [.str "\x7bString\x7d", .str "connections.flight", .str ""], []⟩] :=
  ⟨fun r obj tag pre n hobj hfix =>
      C8_required_from_innermost_helper r obj tag pre hobj hfix n,
   conn_doc⟩

theorem C8_innermost_required_decides_brackets_witness :
    get_output_schema_doc
        (nestArrayReq (SVal.list [SVal.str "airport"]) 2 connItemsSchema)
        "apiSuccess" []
      = get_output_schema_doc connItemsSchema "apiSuccess" [] :=
  C8_innermost_required_decides_brackets.1
    (SVal.list [SVal.str "airport"]) connItemsSchema "apiSuccess" [] 2
    (by simp [connItemsSchema, SVal.get, SVal.lookup])
    connItems_fix

/-- The `string` leaf schema of the person-details test. -/
def strLeaf : SVal := .dict [("type", SVal.str "string")]

/-- The `integer` leaf schema of the person-details test. -/
def intLeaf : SVal := .dict [("type", SVal.str "integer")]

/-- The nested address object of the repository's person-details test. -/
def addressSchema : SVal := .dict
  [("title", SVal.str "Person address"),
   ("type", SVal.str "object"),
   ("properties", .dict [("country", strLeaf)])]

/-- The root object of the repository's person-details test. -/
def personSchema : SVal := .dict
  [("title", SVal.str "Person details"),
   ("type", SVal.str "object"),
   ("properties", .dict
      [("name", strLeaf), ("age", intLeaf), ("address", addressSchema)])]

theorem strLeaf_c1 : (strLeaf.get "type" == some (SVal.str "object")
    && strLeaf.hasKey "properties") = false := by
  simp [strLeaf, SVal.get, SVal.lookup, SVal.hasKey, SVal.str_beq]

theorem strLeaf_c2 : (strLeaf.get "type" == some (SVal.str "array")
    && strLeaf.hasKey "items") = false := by
  simp [strLeaf, SVal.get, SVal.lookup, SVal.hasKey, SVal.str_beq]

theorem intLeaf_c1 : (intLeaf.get "type" == some (SVal.str "object")
    && intLeaf.hasKey "properties") = false := by
  simp [intLeaf, SVal.get, SVal.lookup, SVal.hasKey, SVal.str_beq]

theorem intLeaf_c2 : (intLeaf.get "type" == some (SVal.str "array")
    && intLeaf.hasKey "items") = false := by
  simp [intLeaf, SVal.get, SVal.lookup, SVal.hasKey, SVal.str_beq]

theorem address_doc :
    get_output_schema_doc addressSchema "apiSuccess" ["address"]
      = some [⟨"apiSuccess",
          [.str "\x7bString\x7d", .str "[address.country]", .str ""], []⟩] := by
  have hfix : get_schema_nested addressSchema = addressSchema :=
    @nested_obj_props_nonstr addressSchema (SVal.dict [("country", strLeaf)])
      (by simp [addressSchema, SVal.get, SVal.lookup])
      (by simp [addressSchema, SVal.get, SVal.lookup])
      (by intro u; simp [SVal.get, SVal.lookup])
  have hfields : get_schema_fields (get_schema_nested addressSchema)
      = SVal.dict [("country", strLeaf)] := by
    rw [hfix, fields_object (by simp [addressSchema, SVal.get, SVal.lookup])]
    simp [addressSchema, SVal.get, SVal.lookup]
  rw [doc_unfold "apiSuccess" ["address"]
    (by simp [addressSchema, SVal.get, SVal.lookup]) (Or.inl rfl) hfields]
  rw [hfix]
  have hreq : ((addressSchema.get "required").getD (SVal.list []))
      = SVal.list [] := by
    simp [addressSchema, SVal.get, SVal.lookup]
  rw [hreq]
  rw [show sortFields [("country", strLeaf)] = [("country", strLeaf)] from rfl]
  have hnote : get_schema_note "country" strLeaf "apiSuccess" ["address"]
      (SVal.list [])
      = some ⟨"apiSuccess",
          [.str "\x7bString\x7d", .str "[address.country]", .str ""], []⟩ := by
    have i1 : ".".intercalate ["address", "country"] = "address.country" := rfl
    simp [get_schema_note, strLeaf, SVal.get, SVal.lookup, format_type,
      format_field_name, resolveUnion, enumClause, get_array_suffix,
      strRangeClause, numRangeClause, truthyOpt, pyCapitalize, pyIn,
      pyOrEmptyStr, SVal.truthy, SVal.hasKey, SVal.str_beq, List.contains, i1]
  rw [doc_fields_cons_leaf "country" [] "apiSuccess" ["address"] (SVal.list [])
    strLeaf_c1 strLeaf_c2]
  rw [hnote, Option.some_bind, doc_fields_nil, Option.some_bind]

theorem person_tail_doc :
    doc_fields [("age", intLeaf), ("name", strLeaf)] "apiSuccess" []
        (SVal.list [])
      = some
        [⟨"apiSuccess", [.str "\x7bInteger\x7d", .str "[age]", .str ""], []⟩,
         ⟨"apiSuccess", [.str "\x7bString\x7d", .str "[name]", .str ""], []⟩] := by
  have hage : get_schema_note "age" intLeaf "apiSuccess" [] (SVal.list [])
      = some ⟨"apiSuccess",
          [.str "\x7bInteger\x7d", .str "[age]", .str ""], []⟩ := by
    simp [get_schema_note, intLeaf, SVal.get, SVal.lookup, format_type,
      format_field_name, resolveUnion, enumClause, get_array_suffix,
      strRangeClause, numRangeClause, truthyOpt, pyCapitalize, pyIn,
      pyOrEmptyStr, SVal.truthy, SVal.hasKey, SVal.str_beq, List.contains]
  have hname : get_schema_note "name" strLeaf "apiSuccess" [] (SVal.list [])
      = some ⟨"apiSuccess",
          [.str "\x7bString\x7d", .str "[name]", .str ""], []⟩ := by
    simp [get_schema_note, strLeaf, SVal.get, SVal.lookup, format_type,
      format_field_name, resolveUnion, enumClause, get_array_suffix,
      strRangeClause, numRangeClause, truthyOpt, pyCapitalize, pyIn,
      pyOrEmptyStr, SVal.truthy, SVal.hasKey, SVal.str_beq, List.contains]
  rw [doc_fields_cons_leaf "age" [("name", strLeaf)] "apiSuccess" []
    (SVal.list []) intLeaf_c1 intLeaf_c2]
  rw [hage, Option.some_bind]
  rw [doc_fields_cons_leaf "name" [] "apiSuccess" [] (SVal.list [])
    strLeaf_c1 strLeaf_c2]
  rw [hname, Option.some_bind, doc_fields_nil, Option.some_bind,
    Option.some_bind]

theorem person_doc :
    get_output_schema_doc personSchema "apiSuccess" []
      = some
        [⟨"apiSuccess",
           [.str "\x7bObject\x7d", .str "[address]", .str "Person address"], []⟩,
         ⟨"apiSuccess", [.str "\x7bString\x7d", .str "[address.country]", .str ""], []⟩,
         ⟨"apiSuccess", [.str "\x7bInteger\x7d", .str "[age]", .str ""], []⟩,
         ⟨"apiSuccess", [.str "\x7bString\x7d", .str "[name]", .str ""], []⟩] := by
  have hfix : get_schema_nested personSchema = personSchema :=
    @nested_obj_props_nonstr personSchema
      (SVal.dict [("name", strLeaf), ("age", intLeaf), ("address", addressSchema)])
      (by simp [personSchema, SVal.get, SVal.lookup])
      (by simp [personSchema, SVal.get, SVal.lookup])
      (by intro u; simp [SVal.get, SVal.lookup])
  have hfields : get_schema_fields (get_schema_nested personSchema)
      = SVal.dict
          [("name", strLeaf), ("age", intLeaf), ("address", addressSchema)] := by
    rw [hfix, fields_object (by simp [personSchema, SVal.get, SVal.lookup])]
    simp [personSchema, SVal.get, SVal.lookup]
  rw [doc_unfold "apiSuccess" []
    (by simp [personSchema, SVal.get, SVal.lookup]) (Or.inl rfl) hfields]
  rw [hfix]
  have hreq : ((personSchema.get "required").getD (SVal.list []))
      = SVal.list [] := by
    simp [personSchema, SVal.get, SVal.lookup]
  rw [hreq]
  rw [show sortFields
      [("name", strLeaf), ("age", intLeaf), ("address", addressSchema)]
    = [("address", addressSchema), ("age", intLeaf), ("name", strLeaf)] from rfl]
  have hca : (addressSchema.get "type" == some (SVal.str "object")
      && addressSchema.hasKey "properties") = true := by
    simp [addressSchema, SVal.get, SVal.lookup, SVal.hasKey, SVal.str_beq]
  rw [doc_fields_cons_obj "address" [("age", intLeaf), ("name", strLeaf)]
    "apiSuccess" [] (SVal.list []) hca]
  have hnoteA : get_schema_note "address" addressSchema "apiSuccess" []
      (SVal.list [])
      = some ⟨"apiSuccess",
          [.str "\x7bObject\x7d", .str "[address]", .str "Person address"], []⟩ := by
    simp [get_schema_note, addressSchema, strLeaf, SVal.get, SVal.lookup,
      format_type, format_field_name, resolveUnion, enumClause,
      get_array_suffix, strRangeClause, numRangeClause, truthyOpt, pyCapitalize,
      pyIn, pyOrEmptyStr, SVal.truthy, SVal.hasKey, SVal.str_beq, List.contains]
  rw [hnoteA, Option.some_bind]
  rw [show (([] : List String) ++ ["address"]) = ["address"] from rfl]
  rw [address_doc, Option.some_bind]
  rw [person_tail_doc, Option.some_bind]
  rfl

/-- C7: the documentation compiler emits exactly one directive entry per
property of the discovered object, iterating properties in ascending key
order, appends the recursively compiled entries of an object field (or an
array-of-object field) immediately after that field's own entry and before
the next sibling, joins nested keys to the parent path by dots, and yields
the empty sequence for a root whose type is neither `object` nor `array`.
Conjuncts: (1) non-object/array root yields `some []`; (2) `sortFields`
is an ascending-key permutation of the properties, so each property is
visited exactly once in sorted order; (3) an object/array root compiles to
`doc_fields` over the sorted fields of the discovered (nested) object;
(4) a field whose type is object-with-properties or array-with-items
contributes its own entry, then its recursive entries at path `pre ++ [k]`,
then the remaining siblings; (5) any other field contributes exactly its
own entry before the siblings; (6) the repository's person-details schema
compiles to the address/address.country/age/name sequence, dot-joined and
alphabetical, children between parent and next sibling. -/
theorem C7_doc_emission_order_and_nesting :
    (∀ (s : SVal) (t : String) (p : String) (pre : List String),
        s.get "type" = some (SVal.str t) → t ≠ "object" → t ≠ "array" →
        get_output_schema_doc s p pre = some [])
    ∧ (∀ l : List (String × SVal),
        List.Pairwise (fun a b => strLeB a.1 b.1 = true) (sortFields l)
          ∧ List.Perm (sortFields l) l)
    ∧ (∀ (s : SVal) (t : String) (p : String) (pre : List String)
          (fields : List (String × SVal)),
        s.get "type" = some (SVal.str t) → (t = "object" ∨ t = "array") →
        get_schema_fields (get_schema_nested s) = SVal.dict fields →
        get_output_schema_doc s p pre
          = doc_fields (sortFields fields) p pre
              (((get_schema_nested s).get "required").getD (SVal.list [])))
    ∧ (∀ (k : String) (fschema : SVal) (rest : List (String × SVal))
          (p : String) (pre : List String) (req : SVal),
        ((fschema.get "type" == some (SVal.str "object")
            && fschema.hasKey "properties") = true
          ∨ ((fschema.get "type" == some (SVal.str "object")
                && fschema.hasKey "properties") = false
              ∧ (fschema.get "type" == some (SVal.str "array")
                  && fschema.hasKey "items") = true)) →
        doc_fields ((k, fschema) :: rest) p pre req
          = (get_schema_note k fschema p pre req).bind (fun note =>
            (get_output_schema_doc fschema p (pre ++ [k])).bind (fun children =>
            (doc_fields rest p pre req).bind (fun tail =>
            some (note :: children ++ tail)))))
    ∧ (∀ (k : String) (fschema : SVal) (rest : List (String × SVal))
          (p : String) (pre : List String) (req : SVal),
        (fschema.get "type" == some (SVal.str "object")
            && fschema.hasKey "properties") = false →
        (fschema.get "type" == some (SVal.str "array")
            && fschema.hasKey "items") = false →
        doc_fields ((k, fschema) :: rest) p pre req
          = (get_schema_note k fschema p pre req).bind (fun note =>
            (doc_fields rest p pre req).bind (fun tail =>
            some (note :: tail))))
    ∧ get_output_schema_doc personSchema "apiSuccess" []
        = some
          [⟨"apiSuccess",
             [.str "\x7bObject\x7d", .str "[address]", .str "Person address"], []⟩,
           ⟨"apiSuccess", [.str "\x7bString\x7d", .str "[address.country]", .str ""], []⟩,
           ⟨"apiSuccess", [.str "\x7bInteger\x7d", .str "[age]", .str ""], []⟩,
           ⟨"apiSuccess", [.str "\x7bString\x7d", .str "[name]", .str ""], []⟩] := by
  refine ⟨fun s t p pre hT h1 h2 => doc_scalar p pre hT h1 h2,
    fun l => ⟨sortFields_pairwise l, sortFields_perm l⟩,
    fun s t p pre fields hT hor hf => doc_unfold p pre hT hor hf,
    fun k fschema rest p pre req h => ?_,
    fun k fschema rest p pre req h1 h2 =>
      doc_fields_cons_leaf k rest p pre req h1 h2,
    person_doc⟩
  rcases h with h1 | ⟨h1, h2⟩
  · exact doc_fields_cons_obj k rest p pre req h1
  · exact doc_fields_cons_arr k rest p pre req h1 h2

theorem C7_doc_emission_order_and_nesting_witness :
    get_output_schema_doc strLeaf "apiSuccess" [] = some []
      ∧ doc_fields [("name", strLeaf)] "apiSuccess" [] (SVal.list [])
          = (get_schema_note "name" strLeaf "apiSuccess" [] (SVal.list [])).bind
              (fun note =>
                (doc_fields [] "apiSuccess" [] (SVal.list [])).bind
                  (fun tail => some (note :: tail))) :=
  ⟨C7_doc_emission_order_and_nesting.1 strLeaf "string" "apiSuccess" []
      (by simp [strLeaf, SVal.get, SVal.lookup]) (by decide) (by decide),
   C7_doc_emission_order_and_nesting.2.2.2.2.1 "name" strLeaf [] "apiSuccess" []
      (SVal.list []) strLeaf_c1 strLeaf_c2⟩


/-! ### SchemaHelper (`schema.py`)

A helper instance is modelled by the list of `(key, value)` pairs its
callable `get_<key>_key` methods produce (in `dir()` order, i.e. sorted
attribute names) together with the contents of its underlying `UserDict`
mapping.  `as_dict` in the source iterates `dir(self)`, never reading
`self.data`; the recursion through nested helpers terminates on acyclic
values, which the embedding expresses with a fuel parameter (`none`
embeds fuel exhaustion; any fuel above the helper-nesting depth
succeeds). -/

inductive HVal where
  | base : SVal → HVal
  | dict : List (String × HVal) → HVal
  | helper : List (String × HVal) → List (String × HVal) → HVal
deriving Repr

mutual

/-- `True` when no `SchemaHelper` occurs anywhere in the value. -/
def helperFree : HVal → Bool
  | .base _ => true
  | .dict es => helperFreeL es
  | .helper _ _ => false

def helperFreeL : List (String × HVal) → Bool
  | [] => true
  | (_, v) :: rest => helperFree v && helperFreeL rest

end

mutual

/-- `SchemaHelper.as_dict`: build `d` from the `get_<key>_key` methods
(converting values that are themselves helpers), then run
`schemahelpers_as_dict` over the result.  The `data` argument (the
helper's stored mapping) is never read, as in the source. -/
def as_dict : Nat → List (String × HVal) → List (String × HVal) →
    Option (List (String × HVal))
  | 0, _, _ => none
  | fuel + 1, methods, _data => do
      let d ← methodLoop fuel methods
      schemahelpers_as_dict fuel d
termination_by fuel ms dd => (fuel, sizeOf ms + sizeOf dd)
decreasing_by
  all_goals exact Prod.Lex.left _ _ (by omega)

/-- The `dir(self)` loop of `as_dict`: each method's value, with helper
values converted through `as_dict` (other values, dicts included, pass
through untouched at this stage). -/
def methodLoop : Nat → List (String × HVal) →
    Option (List (String × HVal))
  | _, [] => some []
  | fuel, (k, v) :: rest => do
      let v2 ← match v with
        | .helper ms dd => (as_dict fuel ms dd).map HVal.dict
        | x => some x
      let rest2 ← methodLoop fuel rest
      return (k, v2) :: rest2
termination_by fuel l => (fuel, sizeOf l)
decreasing_by
  all_goals apply Prod.Lex.right
  all_goals simp
  all_goals omega

/-- `schemahelpers_as_dict`: convert every helper value (at any depth,
recursing through plain dict values) into its `as_dict` form. -/
def schemahelpers_as_dict : Nat → List (String × HVal) →
    Option (List (String × HVal))
  | _, [] => some []
  | fuel, (k, v) :: rest => do
      let v2 ← match v with
        | .helper ms dd => (as_dict fuel ms dd).map HVal.dict
        | .dict es => (schemahelpers_as_dict fuel es).map HVal.dict
        | x => some x
      let rest2 ← schemahelpers_as_dict fuel rest
      return (k, v2) :: rest2
termination_by fuel l => (fuel, sizeOf l)
decreasing_by
  all_goals apply Prod.Lex.right
  all_goals simp
  all_goals omega

end

theorem as_dict_data_irrelevant :
    ∀ (fuel : Nat) (ms dd dd' : List (String × HVal)),
      as_dict fuel ms dd = as_dict fuel ms dd' := by
  intro fuel ms dd dd'
  cases fuel with
  | zero => rw [as_dict, as_dict]
  | succ n => rw [as_dict, as_dict]

theorem methodLoop_keys :
    ∀ (fuel : Nat) (l d : List (String × HVal)),
      methodLoop fuel l = some d → d.map Prod.fst = l.map Prod.fst := by
  intro fuel l
  induction l with
  | nil =>
      intro d h
      rw [methodLoop] at h
      injection h with h
      rw [← h]
  | cons kv rest ih =>
      obtain ⟨k, v⟩ := kv
      intro d h
      rw [methodLoop.eq_def] at h
      simp only [Option.bind_eq_bind, Option.pure_def] at h
      cases v
      all_goals
        rcases Option.bind_eq_some.mp h with ⟨v2, hv2, h3⟩
        rcases Option.bind_eq_some.mp h3 with ⟨rest2, hrest2, h4⟩
        injection h4 with h4
        rw [← h4]
        simp [ih rest2 hrest2]

theorem sh_keys :
    ∀ (fuel : Nat) (l d : List (String × HVal)),
      schemahelpers_as_dict fuel l = some d → d.map Prod.fst = l.map Prod.fst := by
  intro fuel l
  induction l with
  | nil =>
      intro d h
      rw [schemahelpers_as_dict] at h
      injection h with h
      rw [← h]
  | cons kv rest ih =>
      obtain ⟨k, v⟩ := kv
      intro d h
      rw [schemahelpers_as_dict.eq_def] at h
      simp only [Option.bind_eq_bind, Option.pure_def] at h
      cases v
      all_goals
        rcases Option.bind_eq_some.mp h with ⟨v2, hv2, h3⟩
        rcases Option.bind_eq_some.mp h3 with ⟨rest2, hrest2, h4⟩
        injection h4 with h4
        rw [← h4]
        simp [ih rest2 hrest2]

theorem as_dict_keys :
    ∀ (fuel : Nat) (ms dd r : List (String × HVal)),
      as_dict fuel ms dd = some r → r.map Prod.fst = ms.map Prod.fst := by
  intro fuel ms dd r h
  cases fuel with
  | zero =>
      rw [as_dict] at h
      exact absurd h (by simp)
  | succ n =>
      rw [as_dict] at h
      simp only [Option.bind_eq_bind] at h
      rcases Option.bind_eq_some.mp h with ⟨d, hd, hr⟩
      exact (sh_keys n d r hr).trans (methodLoop_keys n ms d hd)

theorem sh_helperFree :
    ∀ (fuel : Nat) (l : List (String × HVal)), ∀ r,
      schemahelpers_as_dict fuel l = some r → helperFreeL r = true := by
  refine schemahelpers_as_dict.induct
    (fun fuel ms dd =>
      ∀ r, as_dict fuel ms dd = some r → helperFreeL r = true)
    (fun fuel l =>
      ∀ r, schemahelpers_as_dict fuel l = some r → helperFreeL r = true)
    (fun fuel l => True)
    ?_ ?_ ?_ ?_ ?_ ?_ ?_ ?_ ?_
  · intro ms dd r h
    rw [as_dict] at h
    exact absurd h (by simp)
  · intro fuel ms dd _ hsh r h
    rw [as_dict] at h
    simp only [Option.bind_eq_bind] at h
    rcases Option.bind_eq_some.mp h with ⟨d, hd, hr⟩
    exact hsh d r hr
  · intro fuel r h
    rw [schemahelpers_as_dict] at h
    injection h with h
    rw [← h]
    rfl
  · intro fuel k rest ms dd ihRest ihAs r h
    rw [schemahelpers_as_dict] at h
    simp only [Option.bind_eq_bind, Option.pure_def] at h
    rcases Option.bind_eq_some.mp h with ⟨v2, hv2, h3⟩
    rcases Option.bind_eq_some.mp h3 with ⟨rest2, hrest2, h4⟩
    injection h4 with h4
    rw [← h4]
    simp only [Option.map_eq_some'] at hv2
    rcases hv2 with ⟨r1, hr1, hv2⟩
    rw [← hv2]
    rw [helperFreeL, helperFree]
    rw [ihAs r1 hr1, ihRest rest2 hrest2]
    rfl
  · intro fuel k rest es ihRest ihEs r h
    rw [schemahelpers_as_dict] at h
    simp only [Option.bind_eq_bind, Option.pure_def] at h
    rcases Option.bind_eq_some.mp h with ⟨v2, hv2, h3⟩
    rcases Option.bind_eq_some.mp h3 with ⟨rest2, hrest2, h4⟩
    injection h4 with h4
    rw [← h4]
    simp only [Option.map_eq_some'] at hv2
    rcases hv2 with ⟨r1, hr1, hv2⟩
    rw [← hv2]
    rw [helperFreeL, helperFree]
    rw [ihEs r1 hr1, ihRest rest2 hrest2]
    rfl
  · intro fuel k rest x hxh hxd ihRest r h
    cases x with
    | helper ms dd => exact absurd rfl (hxh ms dd)
    | dict es => exact absurd rfl (hxd es)
    | base s =>
        rw [schemahelpers_as_dict] at h
        simp only [Option.bind_eq_bind, Option.pure_def] at h
        rcases Option.bind_eq_some.mp h with ⟨v2, hv2, h3⟩
        rcases Option.bind_eq_some.mp h3 with ⟨rest2, hrest2, h4⟩
        injection h4 with h4
        injection hv2 with hv2
        rw [← h4, ← hv2]
        rw [helperFreeL, helperFree]
        rw [ihRest rest2 hrest2]
        rfl
        all_goals first
          | (intro a b hc
             exact HVal.noConfusion hc)
          | (intro a hc
             exact HVal.noConfusion hc)
  · intro fuel
    trivial
  · intro fuel k rest ms dd ihRest ihAs
    trivial
  · intro fuel k rest x hxh ihRest
    trivial

theorem as_dict_helperFree :
    ∀ (fuel : Nat) (ms dd r : List (String × HVal)),
      as_dict fuel ms dd = some r → helperFreeL r = true := by
  intro fuel ms dd r h
  cases fuel with
  | zero =>
      rw [as_dict] at h
      exact absurd h (by simp)
  | succ n =>
      rw [as_dict] at h
      simp only [Option.bind_eq_bind] at h
      rcases Option.bind_eq_some.mp h with ⟨d, hd, hr⟩
      exact sh_helperFree n d r hr

/-- `MySchema` of the repository tests: one method, `get_enum_key`. -/
def mySchemaMethods : List (String × HVal) :=
  [("enum", .base (SVal.list [SVal.str "A", SVal.str "B"]))]

/-- `MyNestedSchema` of the repository tests: `get_properties_key` returns a
plain dict holding a nested `MySchema()` helper and a plain schema dict;
`get_title_key` returns a string (methods in `dir()` order). -/
def myNestedMethods : List (String × HVal) :=
  [("properties", .dict
      [("myschema", .helper mySchemaMethods []),
       ("memory_length", .dict [("type", .base (SVal.str "integer"))])]),
   ("title", .base (SVal.str "My Nested Schema"))]

/-- The expected `MyNestedSchema().as_dict()` of the repository tests. -/
def myNestedExpected : List (String × HVal) :=
  [("properties", .dict
      [("myschema", .dict
          [("enum", .base (SVal.list [SVal.str "A", SVal.str "B"]))]),
       ("memory_length", .dict [("type", .base (SVal.str "integer"))])]),
   ("title", .base (SVal.str "My Nested Schema"))]

theorem as_dict_succ (fuel : Nat) (ms dd : List (String × HVal)) :
    as_dict (fuel + 1) ms dd
      = (methodLoop fuel ms).bind (fun d => schemahelpers_as_dict fuel d) := by
  rw [as_dict]
  rfl

theorem methodLoop_nil (fuel : Nat) : methodLoop fuel [] = some [] := by
  rw [methodLoop]

theorem methodLoop_cons_base (fuel : Nat) (k : String) (s : SVal)
    (rest : List (String × HVal)) :
    methodLoop fuel ((k, HVal.base s) :: rest)
      = (methodLoop fuel rest).bind (fun r2 => some ((k, HVal.base s) :: r2)) := by
  rw [methodLoop]
  all_goals try rfl
  all_goals intro a b hc
  all_goals exact HVal.noConfusion hc

theorem methodLoop_cons_dict (fuel : Nat) (k : String)
    (es rest : List (String × HVal)) :
    methodLoop fuel ((k, HVal.dict es) :: rest)
      = (methodLoop fuel rest).bind (fun r2 => some ((k, HVal.dict es) :: r2)) := by
  rw [methodLoop]
  all_goals try rfl
  all_goals intro a b hc
  all_goals exact HVal.noConfusion hc

theorem sh_nil (fuel : Nat) : schemahelpers_as_dict fuel [] = some [] := by
  rw [schemahelpers_as_dict]

theorem sh_cons_base (fuel : Nat) (k : String) (s : SVal)
    (rest : List (String × HVal)) :
    schemahelpers_as_dict fuel ((k, HVal.base s) :: rest)
      = (schemahelpers_as_dict fuel rest).bind
          (fun r2 => some ((k, HVal.base s) :: r2)) := by
  rw [schemahelpers_as_dict]
  all_goals try rfl
  all_goals first
    | (intro a b hc
       exact HVal.noConfusion hc)
    | (intro a hc
       exact HVal.noConfusion hc)

theorem sh_cons_dict (fuel : Nat) (k : String)
    (es rest : List (String × HVal)) :
    schemahelpers_as_dict fuel ((k, HVal.dict es) :: rest)
      = ((schemahelpers_as_dict fuel es).map HVal.dict).bind (fun v2 =>
          (schemahelpers_as_dict fuel rest).bind
            (fun r2 => some ((k, v2) :: r2))) := by
  rw [schemahelpers_as_dict]
  rfl

theorem sh_cons_helper (fuel : Nat) (k : String)
    (ms dd rest : List (String × HVal)) :
    schemahelpers_as_dict fuel ((k, HVal.helper ms dd) :: rest)
      = ((as_dict fuel ms dd).map HVal.dict).bind (fun v2 =>
          (schemahelpers_as_dict fuel rest).bind
            (fun r2 => some ((k, v2) :: r2))) := by
  rw [schemahelpers_as_dict]
  rfl

theorem mySchema_loop : methodLoop 1 mySchemaMethods = some mySchemaMethods := by
  rw [mySchemaMethods, methodLoop_cons_base, methodLoop_nil, Option.some_bind]

theorem mySchema_sh :
    schemahelpers_as_dict 1 mySchemaMethods = some mySchemaMethods := by
  rw [mySchemaMethods, sh_cons_base, sh_nil, Option.some_bind]

theorem mySchema_as_dict : as_dict 2 mySchemaMethods [] = some mySchemaMethods := by
  rw [show (2 : Nat) = 1 + 1 from rfl, as_dict_succ, mySchema_loop,
    Option.some_bind, mySchema_sh]

theorem memLen_sh :
    schemahelpers_as_dict 2 [("type", HVal.base (SVal.str "integer"))]
      = some [("type", HVal.base (SVal.str "integer"))] := by
  rw [sh_cons_base, sh_nil, Option.some_bind]

theorem myNested_props_sh :
    schemahelpers_as_dict 2
        [("myschema", HVal.helper mySchemaMethods []),
         ("memory_length", HVal.dict [("type", HVal.base (SVal.str "integer"))])]
      = some
          [("myschema", HVal.dict mySchemaMethods),
           ("memory_length",
             HVal.dict [("type", HVal.base (SVal.str "integer"))])] := by
  rw [sh_cons_helper, mySchema_as_dict]
  rw [show (some mySchemaMethods).map HVal.dict
    = some (HVal.dict mySchemaMethods) from rfl, Option.some_bind]
  rw [sh_cons_dict, memLen_sh]
  rw [show (some [("type", HVal.base (SVal.str "integer"))]).map HVal.dict
    = some (HVal.dict [("type", HVal.base (SVal.str "integer"))]) from rfl,
    Option.some_bind]
  rw [sh_nil, Option.some_bind, Option.some_bind]

theorem myNested_loop :
    methodLoop 2 myNestedMethods = some myNestedMethods := by
  rw [myNestedMethods, methodLoop_cons_dict, methodLoop_cons_base,
    methodLoop_nil, Option.some_bind, Option.some_bind]

theorem myNested_sh :
    schemahelpers_as_dict 2 myNestedMethods = some myNestedExpected := by
  rw [myNestedMethods, sh_cons_dict, myNested_props_sh]
  rw [show (some
        [("myschema", HVal.dict mySchemaMethods),
         ("memory_length",
           HVal.dict [("type", HVal.base (SVal.str "integer"))])]).map HVal.dict
    = some (HVal.dict
        [("myschema", HVal.dict mySchemaMethods),
         ("memory_length",
           HVal.dict [("type", HVal.base (SVal.str "integer"))])]) from rfl,
    Option.some_bind]
  rw [sh_cons_base, sh_nil, Option.some_bind, Option.some_bind]
  rw [myNestedExpected, mySchemaMethods]

theorem myNested_eval :
    as_dict 3 myNestedMethods [("ignored", HVal.base (SVal.str "junk"))]
      = some myNestedExpected := by
  rw [show (3 : Nat) = 2 + 1 from rfl, as_dict_succ, myNested_loop,
    Option.some_bind, myNested_sh]

/-- C10: `SchemaHelper.as_dict` produces a dict containing exactly the keys
derived from the helper's callable `get_<key>_key` methods (first conjunct:
the stored `UserDict` mapping is never read, so the result is identical for
any stored data; second conjunct: on success the result's keys are exactly
the method-derived keys, in `dir()` order, and nested helper values have
been recursively converted, leaving no helper in the result; third
conjunct: the repository's `MyNestedSchema` example, with junk stored in
the underlying mapping, still yields exactly the `properties`/`title` dict
with the nested `MySchema` converted to `enum`). -/
theorem C10_as_dict_keys_from_methods_only :
    (∀ (fuel : Nat) (ms dd dd' : List (String × HVal)),
        as_dict fuel ms dd = as_dict fuel ms dd')
    ∧ (∀ (fuel : Nat) (ms dd r : List (String × HVal)),
        as_dict fuel ms dd = some r →
          r.map Prod.fst = ms.map Prod.fst ∧ helperFreeL r = true)
    ∧ as_dict 3 myNestedMethods [("ignored", HVal.base (SVal.str "junk"))]
        = some myNestedExpected :=
  ⟨as_dict_data_irrelevant,
   fun fuel ms dd r h =>
     ⟨as_dict_keys fuel ms dd r h, as_dict_helperFree fuel ms dd r h⟩,
   myNested_eval⟩

theorem C10_as_dict_keys_from_methods_only_witness :
    myNestedExpected.map Prod.fst = myNestedMethods.map Prod.fst
      ∧ helperFreeL myNestedExpected = true :=
  C10_as_dict_keys_from_methods_only.2.1 3 myNestedMethods
    [("ignored", HVal.base (SVal.str "junk"))] myNestedExpected myNested_eval
